import Mathlib

/-!
Verification of the company-matching core of an MCP HubSpot adapter.

This file shallowly embeds the industry-normalization module
(`industries.py`) and the company matching / mutation operations of
`server.py` (`levenshtein_ratio`, `_match_domains`,
`_calculate_match_score`, `find_companies`, `create_or_update_company`,
`update_company`, `batch_update_companies`) and proves properties of the
embedding.

Modelling conventions:
- Python strings are modelled as Lean `String` / `List Char`, with the
  ASCII fragment of Python's `str.upper`, `str.lower`, `str.strip` and
  `str.isupper` spelled out explicitly over character codes.
- Python floats are modelled as exact rationals (`Rat`): every constant
  in the scoring code is decimal and the properties proved are order
  comparisons that are robust in this range.
- Python dicts are modelled as association lists looked up by first key
  occurrence (dict literals in the code have distinct keys).
- The external record store (HubSpot SDK) is modelled as an oracle
  structure of functions supplied as a parameter; `None`-able record
  property values are `Option String`.
- A Python function that may raise `ValueError` is embedded with
  result type `Except String _` carrying the message.
-/

deriving instance DecidableEq for Except

namespace McpHubspot

/-! ## Python string primitives (ASCII fragment) -/

/-- Characters stripped by Python `str.strip()` (ASCII whitespace). -/
def pyIsSpace (c : Char) : Bool :=
  c.toNat = 32 ∨ c.toNat = 9 ∨ c.toNat = 10 ∨ c.toNat = 13 ∨ c.toNat = 11 ∨ c.toNat = 12

/-- Python `str.isupper()` on a single character, ASCII fragment: true
exactly for `A`-`Z`. -/
def pyIsUpperCh (c : Char) : Bool :=
  65 ≤ c.toNat ∧ c.toNat ≤ 90

/-- Python `str.upper()` on a single character (ASCII fragment). -/
def pyUpperCh (c : Char) : Char :=
  if 97 ≤ c.toNat ∧ c.toNat ≤ 122 then Char.ofNat (c.toNat - 32) else c

/-- Python `str.lower()` on a single character (ASCII fragment). -/
def pyLowerCh (c : Char) : Char :=
  if 65 ≤ c.toNat ∧ c.toNat ≤ 90 then Char.ofNat (c.toNat + 32) else c

def pyUpper (cs : List Char) : List Char := cs.map pyUpperCh

def pyLower (cs : List Char) : List Char := cs.map pyLowerCh

/-- Python `str.strip()` (no argument): drop whitespace at both ends. -/
def pyStrip (cs : List Char) : List Char :=
  ((cs.dropWhile pyIsSpace).reverse.dropWhile pyIsSpace).reverse

/-- Python `str.replace(old, new)` for single-character `old`/`new`. -/
def pyReplaceCh (old new : Char) (cs : List Char) : List Char :=
  cs.map (fun c => if c = old then new else c)

/-- Python `str.replace("  ", " ")`: one left-to-right non-overlapping
pass replacing each double space by a single space. -/
def pyCollapseDoubleSpace : List Char → List Char
  | ' ' :: ' ' :: rest => ' ' :: pyCollapseDoubleSpace rest
  | c :: rest => c :: pyCollapseDoubleSpace rest
  | [] => []

/-- Python `str.split(sep)` for a single-character separator: splits on
every occurrence, keeping empty parts. -/
def pySplitCh (c : Char) : List Char → List (List Char)
  | [] => [[]]
  | a :: as =>
    match pySplitCh c as with
    | [] => [[]]
    | p :: ps => if a = c then [] :: p :: ps else (a :: p) :: ps

/-- Python `sep.join(parts)` for a single-character separator. -/
def pyJoinCh (c : Char) : List (List Char) → List Char
  | [] => []
  | [p] => p
  | p :: ps => p ++ c :: pyJoinCh c ps

/-- Python `"sub" in s` for lists of characters. -/
def pyContainsSeq (pat : List Char) : List Char → Bool
  | [] => pat.isPrefixOf []
  | c :: cs => pat.isPrefixOf (c :: cs) || pyContainsSeq pat cs

/-! ## industries.py: vocabularies -/

/-- Test subset of industries for development/testing
(`TEST_INDUSTRIES` in `industries.py`). -/
def TEST_INDUSTRIES : List String :=
  ["BANKING", "FINANCIAL_SERVICES", "INSURANCE", "FINANCE",
   "INVESTMENT_MANAGEMENT", "HEALTH_CARE", "PHARMACEUTICALS", "ENERGY",
   "TELECOMMUNICATIONS", "TRANSPORTATION", "TECHNOLOGY", "E_COMMERCE",
   "ENTERTAINMENT", "BUSINESS_SERVICES", "MANUFACTURING",
   "INFORMATION_TECHNOLOGY_AND_SERVICES"]

/-- Complete list of approved industries for production
(`APPROVED_INDUSTRIES` in `industries.py`). -/
def APPROVED_INDUSTRIES : List String :=
  ["ACCOUNTING", "AIRLINES_AVIATION", "ALTERNATIVE_DISPUTE_RESOLUTION",
   "ALTERNATIVE_MEDICINE", "ANIMATION", "APPAREL_FASHION",
   "ARCHITECTURE_PLANNING", "ARTS_AND_CRAFTS", "AUTOMOTIVE",
   "AVIATION_AEROSPACE", "BANKING", "BIOTECHNOLOGY", "BROADCAST_MEDIA",
   "BUILDING_MATERIALS", "BUSINESS_SUPPLIES_AND_EQUIPMENT",
   "CAPITAL_MARKETS", "CHEMICALS", "CIVIC_SOCIAL_ORGANIZATION",
   "CIVIL_ENGINEERING", "COMMERCIAL_REAL_ESTATE",
   "COMPUTER_NETWORK_SECURITY", "COMPUTER_GAMES", "COMPUTER_HARDWARE",
   "COMPUTER_NETWORKING", "COMPUTER_SOFTWARE", "INTERNET",
   "CONSTRUCTION", "CONSUMER_ELECTRONICS", "CONSUMER_GOODS",
   "CONSUMER_SERVICES", "COSMETICS", "DAIRY", "DEFENSE_SPACE", "DESIGN",
   "EDUCATION_MANAGEMENT", "E_LEARNING",
   "ELECTRICAL_ELECTRONIC_MANUFACTURING", "ENTERTAINMENT",
   "ENVIRONMENTAL_SERVICES", "EVENTS_SERVICES", "EXECUTIVE_OFFICE",
   "FACILITIES_SERVICES", "FARMING", "FINANCIAL_SERVICES", "FINE_ART",
   "FISHERY", "FOOD_BEVERAGES", "FOOD_PRODUCTION", "FUND_RAISING",
   "FURNITURE", "GAMBLING_CASINOS", "GLASS_CERAMICS_CONCRETE",
   "GOVERNMENT_ADMINISTRATION", "GOVERNMENT_RELATIONS", "GRAPHIC_DESIGN",
   "HEALTH_WELLNESS_AND_FITNESS", "HIGHER_EDUCATION",
   "HOSPITAL_HEALTH_CARE", "HOSPITALITY", "HUMAN_RESOURCES",
   "IMPORT_AND_EXPORT", "INDIVIDUAL_FAMILY_SERVICES",
   "INDUSTRIAL_AUTOMATION", "INFORMATION_SERVICES",
   "INFORMATION_TECHNOLOGY_AND_SERVICES", "INSURANCE",
   "INTERNATIONAL_AFFAIRS", "INTERNATIONAL_TRADE_AND_DEVELOPMENT",
   "INVESTMENT_BANKING", "INVESTMENT_MANAGEMENT", "JUDICIARY",
   "LAW_ENFORCEMENT", "LAW_PRACTICE", "LEGAL_SERVICES",
   "LEGISLATIVE_OFFICE", "LEISURE_TRAVEL_TOURISM", "LIBRARIES",
   "LOGISTICS_AND_SUPPLY_CHAIN", "LUXURY_GOODS_JEWELRY", "MACHINERY",
   "MANAGEMENT_CONSULTING", "MARITIME", "MARKET_RESEARCH",
   "MARKETING_AND_ADVERTISING", "MECHANICAL_OR_INDUSTRIAL_ENGINEERING",
   "MEDIA_PRODUCTION", "MEDICAL_DEVICES", "MEDICAL_PRACTICE",
   "MENTAL_HEALTH_CARE", "MILITARY", "MINING_METALS",
   "MOTION_PICTURES_AND_FILM", "MUSEUMS_AND_INSTITUTIONS", "MUSIC",
   "NANOTECHNOLOGY", "NEWSPAPERS", "NONPROFIT_ORGANIZATION_MANAGEMENT",
   "OIL_ENERGY", "ONLINE_MEDIA", "OUTSOURCING_OFFSHORING",
   "PACKAGE_FREIGHT_DELIVERY", "PACKAGING_AND_CONTAINERS",
   "PAPER_FOREST_PRODUCTS", "PERFORMING_ARTS", "PHARMACEUTICALS",
   "PHILANTHROPY", "PHOTOGRAPHY", "PLASTICS", "POLITICAL_ORGANIZATION",
   "PRIMARY_SECONDARY_EDUCATION", "PRINTING",
   "PROFESSIONAL_TRAINING_COACHING", "PROGRAM_DEVELOPMENT",
   "PUBLIC_POLICY", "PUBLIC_RELATIONS_AND_COMMUNICATIONS",
   "PUBLIC_SAFETY", "PUBLISHING", "RAILROAD_MANUFACTURE", "RANCHING",
   "REAL_ESTATE", "RECREATIONAL_FACILITIES_AND_SERVICES",
   "RELIGIOUS_INSTITUTIONS", "RENEWABLES_ENVIRONMENT", "RESEARCH",
   "RESTAURANTS", "RETAIL", "SECURITY_AND_INVESTIGATIONS",
   "SEMICONDUCTORS", "SHIPBUILDING", "SPORTING_GOODS", "SPORTS",
   "STAFFING_AND_RECRUITING", "SUPERMARKETS", "TELECOMMUNICATIONS",
   "TEXTILES", "THINK_TANKS", "TOBACCO", "TRANSLATION_AND_LOCALIZATION",
   "TRANSPORTATION_TRUCKING_RAILROAD", "UTILITIES",
   "VENTURE_CAPITAL_PRIVATE_EQUITY", "VETERINARY", "WAREHOUSING",
   "WHOLESALE", "WINE_AND_SPIRITS", "WIRELESS", "WRITING_AND_EDITING"]

/-! ## industries.py: normalization and validation -/

/-- The alias table used in test mode (`test_aliases` with
`test_mode = True` in `normalize_industry`). -/
def testAliases : List (String × String) :=
  [("TECH", "TECHNOLOGY"), ("IT", "TECHNOLOGY"),
   ("IT_SERVICES", "TECHNOLOGY"), ("TECHNOLOGY", "TECHNOLOGY"),
   ("HEALTHCARE", "HEALTH_CARE"), ("FINANCE", "FINANCIAL_SERVICES"),
   ("BANKING_AND_FINANCE", "FINANCIAL_SERVICES"),
   ("ECOMMERCE", "E_COMMERCE")]

/-- The alias table used in production mode (`test_aliases` with
`test_mode = False` in `normalize_industry`). -/
def prodAliases : List (String × String) :=
  [("MANUFACTURING", "INDUSTRIAL_AUTOMATION"),
   ("INDUSTRIAL_MANUFACTURING", "INDUSTRIAL_AUTOMATION"),
   ("IT_SERVICES", "INFORMATION_TECHNOLOGY_AND_SERVICES"),
   ("IT", "INFORMATION_TECHNOLOGY_AND_SERVICES"),
   ("TECH", "INFORMATION_TECHNOLOGY_AND_SERVICES"),
   ("TECHNOLOGY", "INFORMATION_TECHNOLOGY_AND_SERVICES"),
   ("SOFTWARE", "COMPUTER_SOFTWARE"),
   ("SOFTWARE_DEVELOPMENT", "COMPUTER_SOFTWARE"),
   ("REAL_ESTATE_COMMERCIAL", "COMMERCIAL_REAL_ESTATE"),
   ("HEALTHCARE", "HOSPITAL_HEALTH_CARE"),
   ("HEALTH_CARE", "HOSPITAL_HEALTH_CARE"),
   ("EDUCATION", "EDUCATION_MANAGEMENT"),
   ("CONSULTING", "MANAGEMENT_CONSULTING"),
   ("MARKETING", "MARKETING_AND_ADVERTISING"),
   ("ADVERTISING", "MARKETING_AND_ADVERTISING"),
   ("LEGAL", "LEGAL_SERVICES"), ("LAW", "LEGAL_SERVICES"),
   ("FINANCE", "FINANCIAL_SERVICES"),
   ("BANKING_AND_FINANCE", "FINANCIAL_SERVICES"),
   ("MANUFACTURING_INDUSTRIAL", "INDUSTRIAL_AUTOMATION"),
   ("INDUSTRIAL", "INDUSTRIAL_AUTOMATION"),
   ("MEDIA", "MEDIA_PRODUCTION"),
   ("ENTERTAINMENT_AND_MEDIA", "ENTERTAINMENT")]

def aliasTable (test_mode : Bool) : List (String × String) :=
  if test_mode then testAliases else prodAliases

def lookupAlias (tbl : List (String × String)) (s : String) : Option String :=
  (tbl.find? (fun p => p.1 = s)).map (fun p => p.2)

/-- The final segment cleanup of line 192 of `industries.py`: split on
underscores, drop empty segments, rejoin with single underscores. -/
def cleanupCore (l : List Char) : List Char :=
  pyJoinCh '_' ((pySplitCh '_' l).filter (fun p => ¬ p = []))

/-- The cleanup pipeline of `normalize_industry` (lines 189-192 of
`industries.py`): uppercase, strip, hyphens to spaces, one pass of
double-space collapsing, spaces to underscores, drop empty
underscore-separated segments. -/
def industryCleanup (cs : List Char) : List Char :=
  let n1 := pyStrip (pyUpper cs)
  let n2 := pyCollapseDoubleSpace (pyReplaceCh '-' ' ' n1)
  let n3 := pyReplaceCh ' ' '_' n2
  cleanupCore n3

/-- The V3 format check of `normalize_industry` (line 195): every
character is uppercase (`str.isupper`) or an underscore. -/
def industryFormatOk (cs : List Char) : Bool :=
  cs.all (fun c => pyIsUpperCh c || c = '_')

/-- `normalize_industry(industry, test_mode)` from `industries.py`.
`Except.error` carries the `ValueError` message. -/
def normalize_industry (industry : Option String) (test_mode : Bool) :
    Except String String :=
  match industry with
  | none => .ok ""
  | some s =>
    if pyStrip s.toList = [] then .ok ""
    else
      let normalized := industryCleanup s.toList
      if ¬ industryFormatOk normalized then
        .error ("Industry must be uppercase with underscores (V3 API format). Got: "
          ++ String.mk normalized)
      else
        let n := String.mk normalized
        match lookupAlias (aliasTable test_mode) n with
        | some t => .ok t
        | none => .ok n

/-- `is_valid_industry(industry, test_mode, allow_custom)` from
`industries.py`. -/
def is_valid_industry (industry : Option String) (test_mode allow_custom : Bool) :
    Bool :=
  match industry with
  | none => false
  | some s =>
    if pyStrip s.toList = [] then false
    else
      match normalize_industry (some s) test_mode with
      | .error _ => false
      | .ok n =>
        if n = "" then false
        else if allow_custom then true
        else (if test_mode then TEST_INDUSTRIES else APPROVED_INDUSTRIES).contains n

example : normalize_industry (some "Computer Software") false = .ok "COMPUTER_SOFTWARE" := by decide
example : normalize_industry (some "Computer-Software") false = .ok "COMPUTER_SOFTWARE" := by decide
example : normalize_industry (some "Computer - Software") false = .ok "COMPUTER_SOFTWARE" := by decide
example : normalize_industry (some " Computer Software ") false = .ok "COMPUTER_SOFTWARE" := by decide
example : normalize_industry (some "Technology") false = .ok "INFORMATION_TECHNOLOGY_AND_SERVICES" := by decide
example : normalize_industry (some "Tech") true = .ok "TECHNOLOGY" := by decide
example : normalize_industry (some "Manufacturing") true = .ok "MANUFACTURING" := by decide
example : normalize_industry (some "E-commerce") true = .ok "E_COMMERCE" := by decide
example : normalize_industry none false = .ok "" := by decide
example : normalize_industry (some "  ") true = .ok "" := by decide
example : (normalize_industry (some "123") false).isOk = false := by decide
example : is_valid_industry (some "COMPUTER_SOFTWARE") false false = true := by decide
example : is_valid_industry (some "COMPUTER_SOFTWARE") true false = false := by decide
example : is_valid_industry (some "CUSTOM_INDUSTRY") false false = false := by decide
example : is_valid_industry (some "CUSTOM_INDUSTRY") false true = true := by decide
example : is_valid_industry (some "Invalid Industry") false false = false := by decide

/-! ## server.py: similarity primitive -/

/-- The edit-distance recurrence computed by the dynamic-programming
matrix of `levenshtein_ratio` (insertion, deletion and substitution all
cost 1). -/
def levDist : List Char → List Char → Nat
  | [], l2 => l2.length
  | a :: as, [] => (a :: as).length
  | a :: as, b :: bs =>
    if a = b then levDist as bs
    else 1 + min (levDist as (b :: bs)) (min (levDist (a :: as) bs) (levDist as bs))
termination_by l1 l2 => l1.length + l2.length

/-- `levenshtein_ratio(s1, s2)` from `server.py`: similarity ratio from
the edit distance; 0.0 when either input is empty. -/
def levenshtein_sim (s1 s2 : List Char) : ℚ :=
  if s1 = [] ∨ s2 = [] then 0
  else 1 - (levDist s1 s2 : ℚ) / (max s1.length s2.length : ℚ)

/-! ## server.py: domain matcher -/

def isSchemeChar (c : Char) : Bool :=
  c.isAlpha || c.isDigit || c = '+' || c = '-' || c = '.'

def validScheme : List Char → Bool
  | [] => false
  | c :: rest => c.isAlpha && rest.all isSchemeChar

def takeNetloc (cs : List Char) : List Char :=
  cs.takeWhile (fun c => ¬ (c = '/' ∨ c = '?' ∨ c = '#'))

/-- `urlparse(domain).netloc` for the inputs this code feeds it (it is
only reached when the string contains `://`): the authority component
after `scheme://` (or after a leading `//`), up to the next `/`, `?` or
`#`; empty when no authority is present. -/
def pyNetloc (url : List Char) : List Char :=
  let i := url.findIdx (fun c => c = ':')
  if i < url.length then
    let scheme := url.take i
    let rest := url.drop (i + 1)
    if validScheme scheme ∧ rest.take 2 = ['/', '/'] then takeNetloc (rest.drop 2)
    else if url.take 2 = ['/', '/'] then takeNetloc (url.drop 2)
    else []
  else if url.take 2 = ['/', '/'] then takeNetloc (url.drop 2)
  else []

def rstripSlash (cs : List Char) : List Char :=
  (cs.reverse.dropWhile (fun c => c = '/')).reverse

/-- The inner `normalize_domain` of `_match_domains`: strip the scheme
when `://` is present, strip a leading `www.`, strip trailing slashes
and spaces, lowercase. -/
def normalize_domain (domain : List Char) : List Char :=
  let d1 := if pyContainsSeq "://".toList domain then pyNetloc domain else domain
  let d2 := if "www.".toList.isPrefixOf d1 then d1.drop 4 else d1
  pyLower (pyStrip (rstripSlash d2))

/-- Python truthiness of an optional string: `None` and `""` are falsy. -/
def strFalsy : Option String → Bool
  | none => true
  | some s => s = ""

/-- `_match_domains(criteria_domain, company_domain)` from `server.py`.
The company-side value can be `None` (it is passed unchecked at one call
site), which the leading falsiness test absorbs. -/
def _match_domains (criteria_domain company_domain : Option String) : ℚ :=
  if strFalsy criteria_domain || strFalsy company_domain then 0
  else
    match criteria_domain, company_domain with
    | some cd, some cmd =>
      let a := normalize_domain cd.toList
      let b := normalize_domain cmd.toList
      if a = b then 1
      else if ('.' :: b).isSuffixOf a ∨ ('.' :: a).isSuffixOf b then 9/10
      else
        let ba := a.takeWhile (fun c => ¬ c = '.')
        let bb := b.takeWhile (fun c => ¬ c = '.')
        if ba = bb then 8/10
        else
          let r := levenshtein_sim ba bb
          if 8/10 < r then r * (7/10) else 0
    | _, _ => 0

example : _match_domains (some "https://www.acme.com/") (some "acme.com") = 1 := by
  simp +decide [_match_domains, strFalsy, normalize_domain, pyContainsSeq, pyNetloc,
    takeNetloc, validScheme, isSchemeChar, rstripSlash, pyLower, pyLowerCh, pyStrip,
    pyIsSpace, List.isPrefixOf, List.findIdx, List.findIdx.go]

example : _match_domains (some "shop.acme.com") (some "acme.com") = 9/10 := by
  simp +decide [_match_domains, strFalsy, normalize_domain, pyContainsSeq, pyNetloc,
    takeNetloc, validScheme, isSchemeChar, rstripSlash, pyLower, pyLowerCh, pyStrip,
    pyIsSpace, List.isPrefixOf, List.isSuffixOf]

/-! ## server.py: detailed scorer `_calculate_match_score` -/

/-- A company's properties mapping: values may be `None`. -/
abbrev Props := List (String × Option String)

/-- Search criteria / company data supplied by the caller. -/
abbrev Criteria := List (String × String)

def criteriaLookup (c : Criteria) (k : String) : Option String :=
  (c.find? (fun p => p.1 = k)).map (fun p => p.2)

def propLookup (p : Props) (k : String) : Option (Option String) :=
  (p.find? (fun q => q.1 = k)).map (fun q => q.2)

/-- The score-boosting ladder shared by the name and industry branches
of `_calculate_match_score` (similarity above 0.9 becomes 1.0, above
0.8 becomes 0.95, above 0.7 becomes 0.9). -/
def boostLadder (ns : ℚ) : ℚ :=
  if 9/10 < ns then 1 else if 8/10 < ns then 19/20 else if 7/10 < ns then 9/10 else ns

/-- The generic-properties accumulation of `_calculate_match_score`
(lines 187-199): returns the accumulated score and the number of
matched properties. -/
def otherPropsScore (company : Props) (other : List (String × String)) (fuzzy : Bool) :
    ℚ × Nat :=
  other.foldl
    (fun acc kv =>
      match propLookup company kv.1 with
      | some (some pv) =>
        if pyLower kv.2.toList = pyLower pv.toList then (acc.1 + 1, acc.2 + 1)
        else if fuzzy then
          let ps := levenshtein_sim (pyLower kv.2.toList) (pyLower pv.toList)
          if 7/10 < ps then (acc.1 + ps, acc.2 + 1) else acc
        else acc
      | _ => acc)
    (0, 0)

/-- The industry block of `_calculate_match_score` (lines 158-182):
yields (score contribution, industry_matched, used, weight added to
total_weight). `normalize_industry` is called here without a
`try`, so a malformed industry on either side propagates. -/
def industryBlockDetailed (company : Props) (criteria : Criteria) (fuzzy : Bool) :
    Except String (ℚ × Bool × Bool × ℚ) :=
  match criteriaLookup criteria "industry", propLookup company "industry" with
  | some ci, some (some pin) =>
    match normalize_industry (some ci) false with
    | .error e => .error e
    | .ok cin =>
      match normalize_industry (some pin) false with
      | .error e => .error e
      | .ok pn =>
        if cin = pn then .ok ((2/10 : ℚ), true, true, (2/10 : ℚ))
        else if fuzzy then
          let isc := levenshtein_sim cin.toList pn.toList
          if 6/10 < isc then
            let isc := boostLadder isc
            .ok ((2/10) * isc, decide (8/10 < isc), true, 2/10)
          else .ok (0, false, true, 2/10)
        else .ok (0, false, true, 2/10)
  | _, _ => .ok (0, false, false, 0)

/-- `_calculate_match_score` after the name block: the domain, industry
and other-properties blocks, the used-criteria guard, the boosts and
the final normalization/clamp. The name contribution, its matched flag
and whether the name criterion was used are passed in. -/
def detailedRest (company : Props) (criteria : Criteria) (fuzzy : Bool)
    (nameScore : ℚ) (nameMatched nameUsed : Bool) : Except String ℚ :=
  let twName : ℚ := 4/10
  let dPart :=
    match criteriaLookup criteria "domain", propLookup company "domain" with
    | some cd, some (some pd) =>
      let ds := _match_domains (some cd) (some pd)
      ((if 0 < ds then (3/10) * ds else 0), true, (3/10 : ℚ))
    | _, _ => ((0 : ℚ), false, (0 : ℚ))
  match industryBlockDetailed company criteria fuzzy with
  | .error e => .error e
  | .ok iPart =>
    let other := criteria.filter
      (fun kv => ¬ (kv.1 = "name" ∨ kv.1 = "domain" ∨ kv.1 = "industry"))
    let oPart :=
      if other = [] then ((0 : ℚ), (0 : ℚ), false)
      else
        let om := otherPropsScore company other fuzzy
        ((if 0 < om.2 then (1/10) * (om.1 / om.2) else 0), (1/10 : ℚ), true)
    let score := nameScore + dPart.1 + iPart.1 + oPart.1
    let total_weight := twName + dPart.2.2 + iPart.2.2.2 + oPart.2.1
    let used := nameUsed || dPart.2.1 || iPart.2.2.1 || oPart.2.2
    if ¬ used || total_weight = 0 then .ok 0
    else
      let score := if (criteriaLookup criteria "name").isSome && nameMatched then
        score * (12/10) else score
      let score := if (criteriaLookup criteria "industry").isSome && iPart.2.1 then
        score * (11/10) else score
      .ok (min 1 (if 0 < total_weight then score / total_weight else 0))

/-- `_calculate_match_score(company, criteria, fuzzy_match)` from
`server.py`: the detailed scorer. Empty properties score 0; an exact
name match (after lowercase and strip) short-circuits the whole
function to 1.0. -/
def _calculate_match_score (company : Props) (criteria : Criteria) (fuzzy_match : Bool) :
    Except String ℚ :=
  if company = [] then .ok 0
  else
    match criteriaLookup criteria "name", propLookup company "name" with
    | some cn, some (some pn) =>
      let c := pyStrip (pyLower cn.toList)
      let p := pyStrip (pyLower pn.toList)
      if c = p then .ok 1
      else if pyContainsSeq c p then
        detailedRest company criteria fuzzy_match ((4/10) * (19/20)) true true
      else if fuzzy_match then
        let ns := levenshtein_sim c p
        if 1/2 < ns then
          let ns := boostLadder ns
          detailedRest company criteria fuzzy_match ((4/10) * ns) (decide (8/10 < ns)) true
        else detailedRest company criteria fuzzy_match 0 false true
      else detailedRest company criteria fuzzy_match 0 false true
    | _, _ => detailedRest company criteria fuzzy_match 0 false false

/-! ## server.py: listing scorer and `find_companies` -/

structure Candidate where
  id : String
  props : Props
deriving DecidableEq

structure MatchResult where
  company : Candidate
  match_score : ℚ
  match_details : List (String × ℚ)
deriving DecidableEq

/-- The name-matching block of the `find_companies` loop (lines
248-259): lowercase only (no strip), exact then substring then fuzzy. -/
def listingNameScore (criteria : Criteria) (fuzzy_match : Bool) (props : Props) : ℚ :=
  match criteriaLookup criteria "name", propLookup props "name" with
  | some cn, some (some pn) =>
    let cl := pyLower cn.toList
    let pl := pyLower pn.toList
    if cl = pl then 1
    else if pyContainsSeq cl pl then 9/10
    else if fuzzy_match then levenshtein_sim cl pl
    else 0
  | _, _ => 0

/-- The domain-matching block of the `find_companies` loop (lines
262-266); the record value may be null, which `_match_domains`
absorbs. -/
def listingDomainScore (criteria : Criteria) (props : Props) : ℚ :=
  match criteriaLookup criteria "domain", propLookup props "domain" with
  | some cd, some pd => _match_domains (some cd) pd
  | _, _ => 0

/-- The industry-matching block of the `find_companies` loop (lines
268-287): the criteria-side normalization raises, the record-side
normalization failure is caught and scored as no match; a null or empty
record industry scores 0. -/
def listingIndustryScore (criteria : Criteria) (fuzzy_match : Bool) (props : Props) :
    Except String ℚ :=
  match criteriaLookup criteria "industry" with
  | some ci =>
    match normalize_industry (some ci) false with
    | .error e => .error e
    | .ok cin =>
      match propLookup props "industry" with
      | some (some ind) =>
        if ¬ ind = "" then
          match normalize_industry (some ind) false with
          | .error _ => .ok 0
          | .ok pn =>
            if cin = pn then .ok 1
            else if fuzzy_match then .ok (levenshtein_sim cin.toList pn.toList)
            else .ok 0
        else .ok 0
      | _ => .ok 0
  | none => .ok 0

/-- The `match_details` entries accumulated by the loop: one entry per
field with a strictly positive score. -/
def listingDetails (ns ds isc : ℚ) : List (String × ℚ) :=
  (if 0 < ns then [("name", ns)] else [])
  ++ (if 0 < ds then [("domain", ds)] else [])
  ++ (if 0 < isc then [("industry", isc)] else [])

/-- The overall-score combination of the loop (lines 289-308): weights
name 0.5, domain 0.3, industry 0.2; a field present in the criteria
always contributes its weight to `total_weight`, and contributes to
`total_score` only when it earned a `match_details` entry. -/
def listingCombine (criteria : Criteria) (ns ds isc : ℚ) : ℚ :=
  let tsName := if (criteriaLookup criteria "name").isSome then
    ((if 0 < ns then ns * (5/10) else 0), (5/10 : ℚ)) else ((0 : ℚ), (0 : ℚ))
  let tsDomain := if (criteriaLookup criteria "domain").isSome then
    ((if 0 < ds then ds * (3/10) else 0), (3/10 : ℚ)) else ((0 : ℚ), (0 : ℚ))
  let tsIndustry := if (criteriaLookup criteria "industry").isSome then
    ((if 0 < isc then isc * (2/10) else 0), (2/10 : ℚ)) else ((0 : ℚ), (0 : ℚ))
  let total_score := tsName.1 + tsDomain.1 + tsIndustry.1
  let total_weight := tsName.2 + tsDomain.2 + tsIndustry.2
  if 0 < total_weight then total_score / total_weight else 0

/-- The per-candidate scoring loop body of `find_companies` (lines
243-308): the listing scorer. Returns the overall match score and the
`match_details` entries. A malformed industry on the company side is
caught and treated as no-match; on the criteria side it propagates. -/
def listingScore (criteria : Criteria) (fuzzy_match : Bool) (cand : Candidate) :
    Except String (ℚ × List (String × ℚ)) :=
  match listingIndustryScore criteria fuzzy_match cand.props with
  | .error e => .error e
  | .ok isc =>
    let ns := listingNameScore criteria fuzzy_match cand.props
    let ds := listingDomainScore criteria cand.props
    .ok (listingCombine criteria ns ds isc, listingDetails ns ds isc)

def scoreAll (criteria : Criteria) (fuzzy : Bool) :
    List Candidate → Except String (List MatchResult)
  | [] => .ok []
  | c :: cs =>
    match listingScore criteria fuzzy c with
    | .error e => .error e
    | .ok sd =>
      match scoreAll criteria fuzzy cs with
      | .error e => .error e
      | .ok rest =>
        .ok ({ company := c, match_score := sd.1, match_details := sd.2 } :: rest)

/-- Stable descending insertion by `match_score`; a stable sort by the
same key produces exactly the output of Python's stable
`list.sort(key=..., reverse=True)`. -/
def insertDesc (r : MatchResult) : List MatchResult → List MatchResult
  | [] => [r]
  | x :: xs =>
    if x.match_score ≤ r.match_score then r :: x :: xs else x :: insertDesc r xs

def sortDesc : List MatchResult → List MatchResult
  | [] => []
  | x :: xs => insertDesc x (sortDesc xs)

def find_companies_scan (criteria : Criteria) (candidates : List Candidate)
    (fuzzy_match : Bool) (threshold : ℚ) : Except String (List MatchResult) :=
  match scoreAll criteria fuzzy_match candidates with
  | .error e => .error e
  | .ok scored => .ok (sortDesc (scored.filter (fun r => threshold ≤ r.match_score)))

/-- `find_companies(criteria, fuzzy_match, threshold)` from `server.py`.
The candidate collection supplied by the record store's pagination is
modelled as the list of all streamed records. The logging line at the
top of the function evaluates `normalize_industry` on the criteria
industry (line 233), so a malformed criteria industry raises before any
candidate is scored. -/
def find_companies (criteria : Criteria) (candidates : List Candidate)
    (fuzzy_match : Bool) (threshold : ℚ) : Except String (List MatchResult) :=
  match criteriaLookup criteria "industry" with
  | some ci =>
    match normalize_industry (some ci) false with
    | .error e => .error e
    | .ok _ => find_companies_scan criteria candidates fuzzy_match threshold
  | none => find_companies_scan criteria candidates fuzzy_match threshold

/-! ## server.py: create_or_update_company and update_company -/

/-- A mutating call issued to the record store. -/
inductive StoreAction where
  | update (company_id : String) (properties : Criteria)
  | create (properties : Criteria)
deriving DecidableEq

/-- Python dict assignment `d[k] = v`: overwrite in place if the key is
present (keeping its position), else append. -/
def setKey (props : Criteria) (k v : String) : Criteria :=
  if props.any (fun p => p.1 = k) then
    props.map (fun p => if p.1 = k then (k, v) else p)
  else props ++ [(k, v)]

/-- The industry validation/normalization block at the top of
`create_or_update_company` (lines 345-353). The boolean returned by
`is_valid_industry` at line 349 is not consulted, and
`is_valid_industry` never raises; only `normalize_industry` can raise
here. -/
def applyIndustryValidation (company_data : Criteria)
    (test_mode allow_custom_industry : Bool) : Except String Criteria :=
  match criteriaLookup company_data "industry" with
  | some ind =>
    let _ := is_valid_industry (some ind) test_mode allow_custom_industry
    match normalize_industry (some ind) test_mode with
    | .error e => .error ("Industry validation failed: " ++ e)
    | .ok n => .ok (setKey company_data "industry" n)
  | none => .ok company_data

/-- `create_or_update_company(company_data, fuzzy_match,
match_threshold, test_mode, allow_custom_industry)` from `server.py`:
returns the mutating call issued to the record store. When
`find_companies` returns no match, a create is issued (line 367). When
it returns any match, line 359 binds `best_match` to the plain dict
built at lines 312-318 of `find_companies`, and line 361 accesses
`best_match.id` — attribute access on a dict — which raises
`AttributeError` before the store's update endpoint is ever called, so
the match branch is an error path, not an update. -/
def create_or_update_company (company_data : Criteria) (candidates : List Candidate)
    (fuzzy_match : Bool) (match_threshold : ℚ) (test_mode allow_custom_industry : Bool) :
    Except String StoreAction :=
  match applyIndustryValidation company_data test_mode allow_custom_industry with
  | .error e => .error e
  | .ok data =>
    match find_companies data candidates fuzzy_match match_threshold with
    | .error e => .error e
    | .ok (_ :: _) => .error "AttributeError: 'dict' object has no attribute 'id'"
    | .ok [] => .ok (.create data)

/-- `update_company(company_id, properties, test_mode,
allow_custom_industry)` from `server.py`, up to the mutating call:
returns the (id, properties) submitted to the record store. The store
call itself and the JSON wrapping of its outcome are external plumbing;
the validation errors modelled here propagate to the caller as in the
source. -/
def update_company (company_id : String) (properties : Criteria)
    (test_mode allow_custom_industry : Bool) : Except String (String × Criteria) :=
  match criteriaLookup properties "industry" with
  | some ind =>
    if ¬ is_valid_industry (some ind) test_mode allow_custom_industry then
      .error ("Invalid industry: " ++ ind
        ++ ". Must be one of the approved industries or a valid custom value.")
    else
      match normalize_industry (some ind) test_mode with
      | .error e => .error ("Industry format error: " ++ e)
      | .ok n => .ok (company_id, setKey properties "industry" n)
  | none => .ok (company_id, properties)

/-! ## server.py: batch_update_companies -/

structure BatchUpdateItem where
  company_id : String
  properties : Criteria
deriving DecidableEq

/-- One entry of the record store's bulk-update response. -/
structure BatchStatus where
  id : String
  status_code : Nat
  message : String
  properties : Criteria
deriving DecidableEq

/-- The external record store, as consumed by `batch_update_companies`:
a bulk update endpoint and a single-record update endpoint, each either
returning data or failing with a message (a raised exception). -/
structure RecordStore where
  batchUpdate : List (String × Criteria) → Except String (List BatchStatus)
  singleUpdate : String → Criteria → Except String Criteria

/-- One per-item outcome of `batch_update_companies`: a success entry
or an entry carrying an error field. -/
inductive BatchResult where
  | ok (company_id : String) (properties : Criteria)
  | err (company_id : String) (msg : String)
deriving DecidableEq

def BatchResult.isErr : BatchResult → Bool
  | .ok _ _ => false
  | .err _ _ => true

/-- One iteration of the validation loop of `batch_update_companies`
(lines 413-434): an invalid industry appends an error entry, a valid
item appends its (normalized) batch input. -/
def batchValidateStep (test_mode allow_custom : Bool)
    (acc : List BatchResult × List (String × Criteria)) (u : BatchUpdateItem) :
    List BatchResult × List (String × Criteria) :=
  match criteriaLookup u.properties "industry" with
  | some ind =>
    if ¬ is_valid_industry (some ind) test_mode allow_custom then
      (acc.1 ++ [.err u.company_id ("Invalid industry: " ++ ind)], acc.2)
    else
      match normalize_industry (some ind) test_mode with
      | .error e =>
        (acc.1 ++ [.err u.company_id ("Industry format error: " ++ e)], acc.2)
      | .ok n => (acc.1, acc.2 ++ [(u.company_id, setKey u.properties "industry" n)])
  | none => (acc.1, acc.2 ++ [(u.company_id, u.properties)])

/-- The validation pass of `batch_update_companies` (lines 412-434):
folds over the updates producing the error entries for invalid items
(in order) and the `batch_inputs` list of validated items (in order). -/
def batchValidate (updates : List BatchUpdateItem) (test_mode allow_custom : Bool) :
    List BatchResult × List (String × Criteria) :=
  updates.foldl (batchValidateStep test_mode allow_custom) ([], [])

/-- `batch_inputs[i:i+100]` grouping: fixed-size chunks. -/
def chunksOf (n : Nat) (l : List α) : List (List α) :=
  match l with
  | [] => []
  | a :: as =>
    if _h : n = 0 then []
    else (a :: as).take n :: chunksOf n ((a :: as).drop n)
termination_by l.length
decreasing_by
  simp only [List.length_drop, List.length_cons]
  omega

/-- Processing of one group (lines 438-473): a bulk call whose statuses
become per-item outcomes; if the bulk call raises, each item of the
group is retried with an individual update. -/
def processGroup (store : RecordStore) (batch : List (String × Criteria)) :
    List BatchResult :=
  match store.batchUpdate batch with
  | .ok statuses =>
    statuses.map (fun st =>
      if st.status_code = 200 then .ok st.id st.properties
      else .err st.id ("Update failed: " ++ st.message))
  | .error _ =>
    batch.map (fun c =>
      match store.singleUpdate c.1 c.2 with
      | .ok rprops => .ok c.1 rprops
      | .error m => .err c.1 m)

/-- `batch_update_companies(updates, test_mode, allow_custom_industry)`
from `server.py`. -/
def batch_update_companies (store : RecordStore) (updates : List BatchUpdateItem)
    (test_mode allow_custom_industry : Bool) : List BatchResult :=
  let v := batchValidate updates test_mode allow_custom_industry
  v.1 ++ (chunksOf 100 v.2).flatMap (processGroup store)

/-- The mutating calls issued to the record store by one group. -/
inductive Mutation where
  | bulk (inputs : List (String × Criteria))
  | single (company_id : String) (properties : Criteria)
deriving DecidableEq

def groupMutations (store : RecordStore) (batch : List (String × Criteria)) :
    List Mutation :=
  match store.batchUpdate batch with
  | .ok _ => [.bulk batch]
  | .error _ => batch.map (fun c => .single c.1 c.2)

/-- The full trace of mutating calls issued by `batch_update_companies`. -/
def batchIssuedMutations (store : RecordStore) (updates : List BatchUpdateItem)
    (test_mode allow_custom : Bool) : List Mutation :=
  (chunksOf 100 (batchValidate updates test_mode allow_custom).2).flatMap
    (groupMutations store)

/-- The (id, properties) pairs a mutating call writes to. -/
def mutationTargets : Mutation → List (String × Criteria)
  | .bulk inputs => inputs
  | .single cid props => [(cid, props)]

/-- The properties carried by a store action. -/
def StoreAction.props : StoreAction → Criteria
  | .update _ p => p
  | .create p => p

/-- The industry value of a batch item, if any. -/
def itemIndustry (u : BatchUpdateItem) : Option String :=
  criteriaLookup u.properties "industry"

/-- Whether the validation pass of `batch_update_companies` marks this
item failed (its industry is present and rejected by
`is_valid_industry`). -/
def itemFailsValidation (tm ac : Bool) (u : BatchUpdateItem) : Bool :=
  match itemIndustry u with
  | some ind => ¬ is_valid_industry (some ind) tm ac
  | none => false

/-- The error entry the validation pass produces for a failed item. -/
def itemError (u : BatchUpdateItem) : BatchResult :=
  .err u.company_id ("Invalid industry: " ++ ((itemIndustry u).getD ""))

/-- The batch input built from a validated item: its properties with
the industry value replaced by its normalized form. -/
def itemSubmitted (tm : Bool) (u : BatchUpdateItem) : String × Criteria :=
  match itemIndustry u with
  | some ind =>
    match normalize_industry (some ind) tm with
    | .ok n => (u.company_id, setKey u.properties "industry" n)
    | .error _ => (u.company_id, u.properties)
  | none => (u.company_id, u.properties)

/-! ## Helper lemmas -/

/-- A validated industry has a successful, non-empty normalization. -/
theorem normalize_ok_of_is_valid {s : String} {tm ac : Bool}
    (h : is_valid_industry (some s) tm ac = true) :
    ∃ n, normalize_industry (some s) tm = .ok n ∧ n ≠ "" := by
  simp only [is_valid_industry] at h
  rcases hn : normalize_industry (some s) tm with e | n
  · rw [hn] at h; simp at h
  · rw [hn] at h
    refine ⟨n, rfl, ?_⟩
    intro hne
    subst hne
    simp at h

/-! ## C3: the test vocabulary versus the production vocabulary -/

/-- C3 (counterexample): the claim "every string in TEST_INDUSTRIES is
also in APPROVED_INDUSTRIES" is false at "ENERGY", and with it the
claimed consequence: "ENERGY" is accepted by `is_valid_industry` in
test mode but rejected in production mode. -/
theorem c3_subset_counterexample :
    TEST_INDUSTRIES.contains "ENERGY" = true ∧
    APPROVED_INDUSTRIES.contains "ENERGY" = false ∧
    is_valid_industry (some "ENERGY") true false = true ∧
    is_valid_industry (some "ENERGY") false false = false := by
  refine ⟨by decide, by decide, by decide, by decide⟩

/-- C3 (amended): TEST_INDUSTRIES is not a subset of
APPROVED_INDUSTRIES: exactly eight of its sixteen members are in the
production vocabulary and the other eight (FINANCE, HEALTH_CARE,
ENERGY, TRANSPORTATION, TECHNOLOGY, E_COMMERCE, BUSINESS_SERVICES,
MANUFACTURING) are not, so test-mode acceptance with allow_custom false
does not imply production-mode acceptance. -/
theorem c3_vocabulary_overlap :
    TEST_INDUSTRIES.filter (fun s => APPROVED_INDUSTRIES.contains s)
      = ["BANKING", "FINANCIAL_SERVICES", "INSURANCE", "INVESTMENT_MANAGEMENT",
         "PHARMACEUTICALS", "TELECOMMUNICATIONS", "ENTERTAINMENT",
         "INFORMATION_TECHNOLOGY_AND_SERVICES"] ∧
    TEST_INDUSTRIES.filter (fun s => !(APPROVED_INDUSTRIES.contains s))
      = ["FINANCE", "HEALTH_CARE", "ENERGY", "TRANSPORTATION", "TECHNOLOGY",
         "E_COMMERCE", "BUSINESS_SERVICES", "MANUFACTURING"] := by
  refine ⟨by decide, by decide⟩

/-! ## C7: exact-name short circuit of the detailed scorer -/

/-- C7: if the criteria name and the record's (non-null) name agree
after lowercasing and stripping, the detailed scorer returns exactly
1.0, whatever else the criteria or the record contain. -/
theorem c7_exact_name_short_circuit (company : Props) (criteria : Criteria)
    (fuzzy : Bool) (cn pn : String)
    (hne : ¬ company = [])
    (hc : criteriaLookup criteria "name" = some cn)
    (hp : propLookup company "name" = some (some pn))
    (heq : pyStrip (pyLower cn.toList) = pyStrip (pyLower pn.toList)) :
    _calculate_match_score company criteria fuzzy = .ok 1 := by
  have heq' : pyStrip (pyLower cn.data) = pyStrip (pyLower pn.data) := heq
  unfold _calculate_match_score
  rw [if_neg hne, hc, hp]
  simp [heq']

/-- C7 witness: a concrete exact-name match returns 1.0 even though
both sides carry an industry value that would not even normalize. -/
theorem c7_witness :
    _calculate_match_score
      [("name", some "Acme Corporation"), ("industry", some "123")]
      [("name", "Acme Corporation"), ("industry", "123")] true = .ok 1 :=
  c7_exact_name_short_circuit
    [("name", some "Acme Corporation"), ("industry", some "123")]
    [("name", "Acme Corporation"), ("industry", "123")] true
    "Acme Corporation" "Acme Corporation"
    (by decide) (by decide) (by decide) (by decide)

/-! ## C4: normalize_industry format errors -/

/-- Every alias target in both alias tables is in canonical `[A-Z_]`
format. -/
theorem aliasTargetsFormatOk (tm : Bool) :
    ((aliasTable tm).all (fun p => industryFormatOk p.2.toList)) = true := by
  cases tm <;> decide

/-- A character allowed by the V3 format check is an uppercase letter
or an underscore. -/
theorem formatOk_chars {l : List Char} (h : industryFormatOk l = true) :
    ∀ c ∈ l, pyIsUpperCh c = true ∨ c = '_' := by
  intro c hc
  have hb := List.all_eq_true.mp h c hc
  simpa using hb

/-- A successful alias lookup returns one of the table's targets, so
its result is in canonical format. -/
theorem lookupAlias_target_formatOk {tm : Bool} {s t : String}
    (h : lookupAlias (aliasTable tm) s = some t) :
    industryFormatOk t.toList = true := by
  simp only [lookupAlias, Option.map_eq_some'] at h
  obtain ⟨p, hfind, hpt⟩ := h
  have hmem : p ∈ aliasTable tm := List.mem_of_find?_eq_some hfind
  have hall := List.all_eq_true.mp (aliasTargetsFormatOk tm) p hmem
  subst hpt
  exact hall

/-- C4: for non-blank input, `normalize_industry` fails exactly when
the string produced by the cleanup pipeline contains a character that
is neither an uppercase letter nor an underscore; consequently every
string it returns is made of such characters only. -/
theorem c4_format_error_characterization (s : String) (tm : Bool)
    (hnb : ¬ pyStrip s.toList = []) :
    ((∃ e, normalize_industry (some s) tm = .error e) ↔
      ∃ c ∈ industryCleanup s.toList, pyIsUpperCh c = false ∧ ¬ c = '_') ∧
    (∀ v, normalize_industry (some s) tm = .ok v →
      ∀ c ∈ v.toList, pyIsUpperCh c = true ∨ c = '_') := by
  simp only [String.toList] at hnb ⊢
  constructor
  · constructor
    · rintro ⟨e, he⟩
      rw [normalize_industry] at he
      simp only [String.toList] at he
      rw [if_neg hnb] at he
      by_cases hfmt : industryFormatOk (industryCleanup s.data) = true
      · rw [if_neg (by simp [hfmt])] at he
        rcases h : lookupAlias (aliasTable tm) (String.mk (industryCleanup s.data)) with _ | t <;>
          simp [h] at he
      · simp only [industryFormatOk, List.all_eq_true] at hfmt
        push_neg at hfmt
        obtain ⟨c, hc, hcbad⟩ := hfmt
        refine ⟨c, hc, ?_, ?_⟩
        · cases hu : pyIsUpperCh c
          · rfl
          · exact absurd (by simp [hu]) hcbad
        · intro hcu
          exact hcbad (by simp [hcu])
    · rintro ⟨c, hc, hcu, hcn⟩
      have hfmt : ¬ industryFormatOk (industryCleanup s.data) = true := by
        simp only [industryFormatOk, List.all_eq_true]
        push_neg
        exact ⟨c, hc, by simp [hcu, hcn]⟩
      exact ⟨"Industry must be uppercase with underscores (V3 API format). Got: "
          ++ String.mk (industryCleanup s.data), by
        rw [normalize_industry]
        simp only [String.toList]
        rw [if_neg hnb, if_pos (by simp [hfmt])]⟩
  · intro v hv
    rw [normalize_industry] at hv
    simp only [String.toList] at hv
    rw [if_neg hnb] at hv
    by_cases hfmt : industryFormatOk (industryCleanup s.data) = true
    · rw [if_neg (by simp [hfmt])] at hv
      rcases h : lookupAlias (aliasTable tm) (String.mk (industryCleanup s.data)) with _ | t
      · rw [h] at hv
        simp only [Except.ok.injEq] at hv
        subst hv
        exact formatOk_chars hfmt
      · rw [h] at hv
        simp only [Except.ok.injEq] at hv
        subst hv
        exact formatOk_chars (lookupAlias_target_formatOk h)
    · rw [if_pos (by simp [hfmt])] at hv
      exact absurd hv (by simp)

/-- C4 witness: the digits-only input "123" is non-blank and raises the
format error, through the characterization applied at the offending
character '1'. -/
theorem c4_witness :
    ¬ pyStrip "123".toList = [] ∧
    (∃ e, normalize_industry (some "123") false = .error e) :=
  ⟨by decide,
   (c4_format_error_characterization "123" false (by decide)).1.mpr
     ⟨'1', by decide, by decide, by decide⟩⟩

/-! ## C1: create_or_update_company does not reject unapproved industries -/

/-- C1: "INVALID_INDUSTRY" is well-formed but rejected by
`is_valid_industry` in production mode with custom values disallowed;
nevertheless `create_or_update_company` ignores that verdict and issues
a create call to the record store instead of raising. -/
theorem c1_invalid_industry_not_rejected :
    is_valid_industry (some "INVALID_INDUSTRY") false false = false ∧
    normalize_industry (some "INVALID_INDUSTRY") false = .ok "INVALID_INDUSTRY" ∧
    create_or_update_company [("industry", "INVALID_INDUSTRY")] [] true (8/10) false false
      = .ok (.create [("industry", "INVALID_INDUSTRY")]) := by
  refine ⟨by decide, by decide, ?_⟩
  decide

/-! ## C6: find_companies returns threshold-filtered, descending results -/

theorem mem_insertDesc {x r : MatchResult} {l : List MatchResult} :
    x ∈ insertDesc r l ↔ x = r ∨ x ∈ l := by
  induction l with
  | nil => simp [insertDesc]
  | cons a as ih =>
    by_cases h : a.match_score ≤ r.match_score
    · rw [insertDesc, if_pos h]
      simp [or_comm, or_left_comm]
    · rw [insertDesc, if_neg h]
      simp [ih, or_comm, or_left_comm]

theorem mem_sortDesc {x : MatchResult} {l : List MatchResult} :
    x ∈ sortDesc l ↔ x ∈ l := by
  induction l with
  | nil => simp [sortDesc]
  | cons a as ih =>
    rw [sortDesc]
    simp [mem_insertDesc, ih]

theorem sorted_insertDesc {r : MatchResult} {l : List MatchResult}
    (h : l.Pairwise (fun a b => b.match_score ≤ a.match_score)) :
    (insertDesc r l).Pairwise (fun a b => b.match_score ≤ a.match_score) := by
  induction l with
  | nil => simp [insertDesc]
  | cons a as ih =>
    rcases List.pairwise_cons.mp h with ⟨ha, has⟩
    by_cases hc : a.match_score ≤ r.match_score
    · rw [insertDesc, if_pos hc]
      refine List.pairwise_cons.mpr ⟨?_, h⟩
      intro b hb
      rcases List.mem_cons.mp hb with rfl | hb
      · exact hc
      · exact le_trans (ha b hb) hc
    · rw [insertDesc, if_neg hc]
      refine List.pairwise_cons.mpr ⟨?_, ih has⟩
      intro b hb
      rcases mem_insertDesc.mp hb with rfl | hb
      · exact le_of_lt (lt_of_not_le hc)
      · exact ha b hb

theorem sorted_sortDesc (l : List MatchResult) :
    (sortDesc l).Pairwise (fun a b => b.match_score ≤ a.match_score) := by
  induction l with
  | nil => simp [sortDesc]
  | cons a as ih =>
    rw [sortDesc]
    exact sorted_insertDesc ih

theorem find_companies_scan_ok {criteria : Criteria} {candidates : List Candidate}
    {fz : Bool} {threshold : ℚ} {rs : List MatchResult}
    (h : find_companies_scan criteria candidates fz threshold = .ok rs) :
    ∃ scored, scoreAll criteria fz candidates = .ok scored ∧
      rs = sortDesc (scored.filter (fun r => threshold ≤ r.match_score)) := by
  unfold find_companies_scan at h
  rcases hs : scoreAll criteria fz candidates with e | scored
  · rw [hs] at h
    exact absurd h (by simp)
  · rw [hs] at h
    simp only [Except.ok.injEq] at h
    exact ⟨scored, rfl, h.symm⟩

theorem find_companies_ok_shape {criteria : Criteria} {candidates : List Candidate}
    {fz : Bool} {threshold : ℚ} {rs : List MatchResult}
    (h : find_companies criteria candidates fz threshold = .ok rs) :
    ∃ scored, scoreAll criteria fz candidates = .ok scored ∧
      rs = sortDesc (scored.filter (fun r => threshold ≤ r.match_score)) := by
  unfold find_companies at h
  rcases hc : criteriaLookup criteria "industry" with _ | ci
  · simp only [hc] at h
    exact find_companies_scan_ok h
  · simp only [hc] at h
    rcases hn : normalize_industry (some ci) false with e | n
    · simp only [hn] at h
      exact absurd h (by simp)
    · simp only [hn] at h
      exact find_companies_scan_ok h

/-- C6: every result of `find_companies` scores at least the threshold,
and the result sequence is in non-increasing `match_score` order. -/
theorem c6_find_results_filtered_sorted (criteria : Criteria)
    (candidates : List Candidate) (fz : Bool) (threshold : ℚ)
    (rs : List MatchResult)
    (h : find_companies criteria candidates fz threshold = .ok rs) :
    (∀ r ∈ rs, threshold ≤ r.match_score) ∧
    rs.Pairwise (fun a b => b.match_score ≤ a.match_score) := by
  obtain ⟨scored, hsc, hrs⟩ := find_companies_ok_shape h
  subst hrs
  constructor
  · intro r hr
    have hm := List.mem_filter.mp (mem_sortDesc.mp hr)
    simpa using hm.2
  · exact sorted_sortDesc _

/-- C6 witness: a concrete search returning one perfect match. -/
theorem c6_witness :
    (∀ r ∈ [MatchResult.mk ⟨"a", [("name", some "Acme Corporation")]⟩ 1 [("name", 1)]],
        (7/10 : ℚ) ≤ r.match_score) ∧
    ([MatchResult.mk ⟨"a", [("name", some "Acme Corporation")]⟩ 1 [("name", 1)]].Pairwise
        (fun a b => b.match_score ≤ a.match_score)) :=
  c6_find_results_filtered_sorted
    [("name", "Acme Corporation")] [⟨"a", [("name", some "Acme Corporation")]⟩]
    false (7/10) _ (by
      simp +decide [find_companies, find_companies_scan, scoreAll, listingScore,
        listingNameScore, listingDomainScore, listingIndustryScore, listingDetails,
        listingCombine, criteriaLookup, propLookup, List.find?, sortDesc, insertDesc]
      norm_num
      simp [sortDesc, insertDesc])

/-! ## The cleanup pipeline is a fixed point on canonical strings -/

theorem pySplitCh_ne_nil (c : Char) (l : List Char) : ¬ pySplitCh c l = [] := by
  cases l with
  | nil => simp [pySplitCh]
  | cons a as =>
    simp only [pySplitCh]
    rcases h : pySplitCh c as with _ | ⟨p, ps⟩
    · simp
    · by_cases hac : a = c <;> simp [hac]

theorem mem_pySplitCh_subset {c : Char} {l : List Char} :
    ∀ p ∈ pySplitCh c l, ∀ x ∈ p, x ∈ l := by
  induction l with
  | nil =>
    intro p hp x hx
    simp [pySplitCh] at hp
    subst hp
    simp at hx
  | cons a as ih =>
    intro p hp x hx
    simp only [pySplitCh] at hp
    rcases h : pySplitCh c as with _ | ⟨q, qs⟩
    · exact absurd h (pySplitCh_ne_nil c as)
    · simp only [h] at hp
      by_cases hac : a = c
      · rw [if_pos hac] at hp
        rcases List.mem_cons.mp hp with rfl | hp'
        · simp at hx
        · exact List.mem_cons_of_mem a (ih p (h ▸ hp') x hx)
      · rw [if_neg hac] at hp
        rcases List.mem_cons.mp hp with rfl | hp'
        · rcases List.mem_cons.mp hx with hxa | hx'
          · simp [hxa]
          · exact List.mem_cons_of_mem a (ih q (h ▸ List.mem_cons_self q qs) x hx')
        · exact List.mem_cons_of_mem a (ih p (h ▸ List.mem_cons_of_mem q hp') x hx)

theorem sep_not_mem_pySplitCh {c : Char} {l : List Char} :
    ∀ p ∈ pySplitCh c l, ¬ c ∈ p := by
  induction l with
  | nil =>
    intro p hp
    simp [pySplitCh] at hp
    subst hp
    simp
  | cons a as ih =>
    intro p hp
    simp only [pySplitCh] at hp
    rcases h : pySplitCh c as with _ | ⟨q, qs⟩
    · exact absurd h (pySplitCh_ne_nil c as)
    · simp only [h] at hp
      by_cases hac : a = c
      · rw [if_pos hac] at hp
        rcases List.mem_cons.mp hp with rfl | hp'
        · simp
        · exact ih p (h ▸ hp')
      · rw [if_neg hac] at hp
        rcases List.mem_cons.mp hp with rfl | hp'
        · intro hcp
          rcases List.mem_cons.mp hcp with rfl | hcq
          · exact hac rfl
          · exact ih q (h ▸ List.mem_cons_self q qs) hcq
        · exact ih p (h ▸ List.mem_cons_of_mem q hp')

theorem mem_pyJoinCh {c x : Char} {ps : List (List Char)} :
    x ∈ pyJoinCh c ps → x = c ∨ ∃ p ∈ ps, x ∈ p := by
  induction ps with
  | nil =>
    intro hx
    simp [pyJoinCh] at hx
  | cons p qs ih =>
    intro hx
    cases qs with
    | nil =>
      simp only [pyJoinCh] at hx
      exact Or.inr ⟨p, List.mem_cons_self p [], hx⟩
    | cons q rs =>
      simp only [pyJoinCh] at hx
      rcases List.mem_append.mp hx with hxp | hxr
      · exact Or.inr ⟨p, List.mem_cons_self _ _, hxp⟩
      · rcases List.mem_cons.mp hxr with rfl | hxr'
        · exact Or.inl rfl
        · rcases ih hxr' with h1 | ⟨r, hr, hxr''⟩
          · exact Or.inl h1
          · exact Or.inr ⟨r, List.mem_cons_of_mem p hr, hxr''⟩

theorem pySplitCh_no_sep {c : Char} {p : List Char} (h : ¬ c ∈ p) :
    pySplitCh c p = [p] := by
  induction p with
  | nil => rfl
  | cons a as ih =>
    have hac : ¬ a = c := fun he => h (he ▸ List.mem_cons_self a as)
    have has : ¬ c ∈ as := fun hm => h (List.mem_cons_of_mem a hm)
    simp only [pySplitCh, ih has, if_neg hac]

theorem pySplitCh_append {c : Char} {p rest : List Char} (h : ¬ c ∈ p) :
    pySplitCh c (p ++ c :: rest) = p :: pySplitCh c rest := by
  induction p with
  | nil =>
    simp only [List.nil_append, pySplitCh]
    rcases hr : pySplitCh c rest with _ | ⟨q, qs⟩
    · exact absurd hr (pySplitCh_ne_nil c rest)
    · simp
  | cons a as ih =>
    have hac : ¬ a = c := fun he => h (he ▸ List.mem_cons_self a as)
    have has : ¬ c ∈ as := fun hm => h (List.mem_cons_of_mem a hm)
    simp only [List.cons_append, pySplitCh, List.append_eq]
    simp only [ih has]
    rw [if_neg hac]

theorem pySplitCh_pyJoinCh {c : Char} {ps : List (List Char)}
    (hne : ¬ ps = []) (hsep : ∀ p ∈ ps, ¬ c ∈ p) :
    pySplitCh c (pyJoinCh c ps) = ps := by
  induction ps with
  | nil => exact absurd rfl hne
  | cons p qs ih =>
    cases qs with
    | nil =>
      simp only [pyJoinCh]
      exact pySplitCh_no_sep (hsep p (List.mem_cons_self _ _))
    | cons q rs =>
      simp only [pyJoinCh]
      rw [pySplitCh_append (hsep p (List.mem_cons_self _ _))]
      rw [ih (by simp) (fun r hr => hsep r (List.mem_cons_of_mem p hr))]

/-- The segment cleanup is idempotent. -/
theorem cleanupCore_idem (l : List Char) :
    cleanupCore (cleanupCore l) = cleanupCore l := by
  unfold cleanupCore
  rcases hps : (pySplitCh '_' l).filter (fun p => ¬ p = []) with _ | ⟨p, qs⟩
  · rw [hps]
    rfl
  · rw [hps]
    have hsep : ∀ q ∈ p :: qs, ¬ '_' ∈ q := by
      intro q hq
      have : q ∈ (pySplitCh '_' l).filter (fun r => ¬ r = []) := hps ▸ hq
      exact sep_not_mem_pySplitCh q (List.mem_of_mem_filter this)
    rw [pySplitCh_pyJoinCh (by simp) hsep]
    have hnonempty : ∀ q ∈ p :: qs, ¬ q = [] := by
      intro q hq
      have : q ∈ (pySplitCh '_' l).filter (fun r => ¬ r = []) := hps ▸ hq
      simpa using List.of_mem_filter this
    rw [List.filter_eq_self.mpr (by intro q hq; simpa using hnonempty q hq)]

theorem dropWhile_of_all_neg {p : Char → Bool} {l : List Char}
    (h : ∀ c ∈ l, p c = false) : l.dropWhile p = l := by
  cases l with
  | nil => rfl
  | cons a as =>
    rw [List.dropWhile_cons, h a (List.mem_cons_self a as)]
    simp

theorem map_id_of_mem {f : Char → Char} {l : List Char}
    (h : ∀ c ∈ l, f c = c) : l.map f = l := by
  induction l with
  | nil => rfl
  | cons a as ih =>
    rw [List.map_cons, h a (List.mem_cons_self a as),
        ih (fun c hc => h c (List.mem_cons_of_mem a hc))]

/-- A canonical character (uppercase or underscore) is unchanged by the
ASCII uppercase map. -/
theorem pyUpperCh_of_canonical {c : Char}
    (h : pyIsUpperCh c = true ∨ c = '_') : pyUpperCh c = c := by
  rcases h with h | rfl
  · simp only [pyIsUpperCh, decide_eq_true_eq] at h
    simp only [pyUpperCh, if_neg (by omega : ¬ (97 ≤ c.toNat ∧ c.toNat ≤ 122))]
  · rfl

theorem canonical_not_space {c : Char}
    (h : pyIsUpperCh c = true ∨ c = '_') : pyIsSpace c = false := by
  rcases h with h | rfl
  · simp only [pyIsUpperCh, decide_eq_true_eq] at h
    simp only [pyIsSpace, decide_eq_false_iff_not]
    omega
  · rfl

theorem canonical_not_hyphen {c : Char}
    (h : pyIsUpperCh c = true ∨ c = '_') : ¬ c = '-' := by
  rcases h with h | rfl
  · simp only [pyIsUpperCh, decide_eq_true_eq] at h
    intro he
    subst he
    simp at h
  · simp

theorem canonical_not_blank {c : Char}
    (h : pyIsUpperCh c = true ∨ c = '_') : ¬ c = ' ' := by
  rcases h with h | rfl
  · simp only [pyIsUpperCh, decide_eq_true_eq] at h
    intro he
    subst he
    simp at h
  · simp

theorem pyUpper_of_formatOk {l : List Char} (h : industryFormatOk l = true) :
    pyUpper l = l := by
  simp only [pyUpper]
  exact map_id_of_mem (fun c hc => pyUpperCh_of_canonical (formatOk_chars h c hc))

theorem pyStrip_of_formatOk {l : List Char} (h : industryFormatOk l = true) :
    pyStrip l = l := by
  have hns : ∀ c ∈ l, pyIsSpace c = false := fun c hc =>
    canonical_not_space (formatOk_chars h c hc)
  unfold pyStrip
  rw [dropWhile_of_all_neg hns,
      dropWhile_of_all_neg (fun c hc => hns c (List.mem_reverse.mp hc)),
      List.reverse_reverse]

theorem pyReplaceHyphen_of_formatOk {l : List Char} (h : industryFormatOk l = true) :
    pyReplaceCh '-' ' ' l = l := by
  simp only [pyReplaceCh]
  exact map_id_of_mem (fun c hc => by
    rw [if_neg (canonical_not_hyphen (formatOk_chars h c hc))])

theorem pyCollapse_of_no_space {l : List Char} (h : ∀ c ∈ l, ¬ c = ' ') :
    pyCollapseDoubleSpace l = l := by
  induction l with
  | nil => rfl
  | cons a as ih =>
    rw [pyCollapseDoubleSpace.eq_def]
    split
    · rename_i heq
      exact absurd (by rw [heq]; exact List.mem_cons_self _ _ : ' ' ∈ a :: as)
        (fun hm => h ' ' hm rfl)
    · rename_i c rest heq
      cases heq
      rw [ih (fun c hc => h c (List.mem_cons_of_mem a hc))]
    · rename_i heq
      cases heq

theorem pyReplaceSpace_of_formatOk {l : List Char} (h : industryFormatOk l = true) :
    pyReplaceCh ' ' '_' l = l := by
  simp only [pyReplaceCh]
  exact map_id_of_mem (fun c hc => by
    rw [if_neg (canonical_not_blank (formatOk_chars h c hc))])

/-- On a string already in canonical `[A-Z_]` format the cleanup
pipeline performs only the segment cleanup. -/
theorem industryCleanup_of_formatOk {l : List Char} (h : industryFormatOk l = true) :
    industryCleanup l = cleanupCore l := by
  unfold industryCleanup
  dsimp only
  rw [pyUpper_of_formatOk h, pyStrip_of_formatOk h, pyReplaceHyphen_of_formatOk h,
      pyCollapse_of_no_space (fun c hc => canonical_not_blank (formatOk_chars h c hc)),
      pyReplaceSpace_of_formatOk h]

/-- The cleanup pipeline is a fixed point on its own canonical
outputs. -/
theorem industryCleanup_fixed {l : List Char}
    (h : industryFormatOk (industryCleanup l) = true) :
    industryCleanup (industryCleanup l) = industryCleanup l := by
  rw [industryCleanup_of_formatOk h]
  show cleanupCore (cleanupCore _) = cleanupCore _
  exact cleanupCore_idem _

theorem mk_toList (l : List Char) : (String.mk l).toList = l := rfl

/-- The segment cleanup never introduces characters beyond the input's
and underscores, so it preserves the format invariant. -/
theorem formatOk_cleanupCore {l : List Char} (h : industryFormatOk l = true) :
    industryFormatOk (cleanupCore l) = true := by
  unfold cleanupCore industryFormatOk
  rw [List.all_eq_true]
  intro c hc
  rcases mem_pyJoinCh hc with rfl | ⟨p, hp, hcp⟩
  · simp
  · have hcl : c ∈ l := mem_pySplitCh_subset p (List.mem_of_mem_filter hp) c hcp
    exact List.all_eq_true.mp h c hcl

/-- Whatever `normalize_industry` returns is in canonical `[A-Z_]`
format. -/
theorem normalize_ok_formatOk {s v : String} {tm : Bool}
    (h : normalize_industry (some s) tm = .ok v) :
    industryFormatOk v.toList = true := by
  rw [normalize_industry] at h
  by_cases hs : pyStrip s.toList = []
  · rw [if_pos hs] at h
    simp only [Except.ok.injEq] at h
    subst h
    rfl
  · rw [if_neg hs] at h
    by_cases hfmt : industryFormatOk (industryCleanup s.toList) = true
    · rw [if_neg (by simp only [not_not]; exact hfmt)] at h
      rcases ha : lookupAlias (aliasTable tm) (String.mk (industryCleanup s.toList)) with _ | t
      · dsimp only at h
        rw [ha] at h
        simp only [Except.ok.injEq] at h
        subst h
        exact hfmt
      · dsimp only at h
        rw [ha] at h
        simp only [Except.ok.injEq] at h
        subst h
        exact lookupAlias_target_formatOk ha
    · rw [if_pos hfmt] at h
      exact absurd h (by simp)

/-- A string in canonical format always normalizes without error
(in production mode, as the resolver calls it). -/
theorem normalize_ok_of_formatOk {v : String}
    (hfmt : industryFormatOk v.toList = true) :
    ∃ w, normalize_industry (some v) false = .ok w := by
  by_cases hs : pyStrip v.toList = []
  · exact ⟨"", by rw [normalize_industry, if_pos hs]⟩
  · have hclean : industryCleanup v.toList = cleanupCore v.toList :=
      industryCleanup_of_formatOk hfmt
    have hfmt2 : industryFormatOk (industryCleanup v.toList) = true := by
      rw [hclean]
      exact formatOk_cleanupCore hfmt
    rcases ha : lookupAlias (aliasTable false) (String.mk (industryCleanup v.toList)) with _ | t
    · refine ⟨String.mk (industryCleanup v.toList), ?_⟩
      rw [normalize_industry, if_neg hs, if_neg (by simp only [not_not]; exact hfmt2)]
      dsimp only
      rw [ha]
    · refine ⟨t, ?_⟩
      rw [normalize_industry, if_neg hs, if_neg (by simp only [not_not]; exact hfmt2)]
      dsimp only
      rw [ha]

/-- Re-normalizing an alias target in the same mode returns it
unchanged (the only target that is also a key, TECHNOLOGY in test mode,
maps to itself). -/
theorem aliasTargets_renormalize (tm : Bool) :
    ∀ p ∈ aliasTable tm, normalize_industry (some p.2) tm = .ok p.2 := by
  cases tm <;> decide

/-! ## C8: normalize_industry is idempotent -/

/-- C8: `normalize_industry` maps `None` and blank strings to the empty
string without raising, and re-normalizing any successful output (with
the same mode flag) returns it unchanged. -/
theorem c8_normalize_idempotent :
    (∀ tm, normalize_industry none tm = .ok "" ∧
       normalize_industry (some "") tm = .ok "" ∧
       normalize_industry (some "  ") tm = .ok "") ∧
    (∀ s tm v, normalize_industry (some s) tm = .ok v →
       normalize_industry (some v) tm = .ok v) := by
  refine ⟨fun tm => ⟨rfl, rfl, rfl⟩, ?_⟩
  intro s tm v h
  rw [normalize_industry] at h
  by_cases hs : pyStrip s.toList = []
  · rw [if_pos hs] at h
    simp only [
      Except.ok.injEq] at h
    subst h
    rfl
  · rw [if_neg hs] at h
    by_cases hfmt : industryFormatOk (industryCleanup s.toList) = true
    · rw [if_neg (by simp only [not_not]; exact hfmt)] at h
      rcases ha : lookupAlias (aliasTable tm) (String.mk (industryCleanup s.toList)) with _ | t
      · dsimp only at h
        rw [ha] at h
        simp only [Except.ok.injEq] at h
        subst h
        by_cases hnil : industryCleanup s.toList = []
        · rw [normalize_industry,
            if_pos (show pyStrip (String.mk (industryCleanup s.toList)).toList = [] by
              rw [mk_toList, hnil]; rfl)]
          rw [show String.mk (industryCleanup s.toList) = "" by rw [hnil]]
        · have hstrip : pyStrip ((String.mk (industryCleanup s.toList)).toList)
              = industryCleanup s.toList := by
            rw [mk_toList]
            exact pyStrip_of_formatOk hfmt
          have hfix : industryCleanup ((String.mk (industryCleanup s.toList)).toList)
              = industryCleanup s.toList := by
            rw [mk_toList]
            exact industryCleanup_fixed hfmt
          rw [normalize_industry, if_neg (by rw [hstrip]; exact hnil)]
          rw [if_neg (by simp only [not_not]; rw [hfix]; exact hfmt)]
          dsimp only
          rw [show String.mk (industryCleanup ((String.mk (industryCleanup s.toList)).toList))
              = String.mk (industryCleanup s.toList) by rw [hfix]]
          rw [ha]
      · dsimp only at h
        rw [ha] at h
        simp only [Except.ok.injEq] at h
        subst h
        simp only [lookupAlias, Option.map_eq_some'] at ha
        obtain ⟨p, hfind, hpt⟩ := ha
        have hmem : p ∈ aliasTable tm := List.mem_of_find?_eq_some hfind
        have := aliasTargets_renormalize tm p hmem
        rw [hpt] at this
        exact this
    · rw [if_pos hfmt] at h
      exact absurd h (by simp)

/-- C8 witness: re-normalizing a concrete normalization result returns
it unchanged. -/
theorem c8_witness :
    normalize_industry (some "COMPUTER_SOFTWARE") false = .ok "COMPUTER_SOFTWARE" :=
  c8_normalize_idempotent.2 "Computer Software" false "COMPUTER_SOFTWARE" (by decide)

/-! ## C9: criteria-side industry errors raise, record-side are swallowed -/

/-- C9: if the criteria carry an industry value that fails format
normalization, `find_companies` returns that error before scoring any
candidate (for every candidate collection); whereas a record whose own
industry fails normalization is scored without error and simply gets no
industry match entry. -/
theorem c9_criteria_raises_record_swallowed (criteria : Criteria) (ci : String)
    (hci : criteriaLookup criteria "industry" = some ci) :
    (∀ e, normalize_industry (some ci) false = .error e →
      ∀ candidates fz threshold,
        find_companies criteria candidates fz threshold = .error e) ∧
    (∀ n, normalize_industry (some ci) false = .ok n →
      ∀ cand ind, propLookup cand.props "industry" = some (some ind) → ¬ ind = "" →
      ∀ e, normalize_industry (some ind) false = .error e →
      ∀ fz, ∃ sc d, listingScore criteria fz cand = .ok (sc, d) ∧
        ∀ q ∈ d, ¬ q.1 = "industry") := by
  constructor
  · intro e he candidates fz threshold
    rw [find_companies]
    simp only [hci, he]
  · intro n hn cand ind hind hne e he fz
    have hisc : listingIndustryScore criteria fz cand.props = .ok 0 := by
      rw [listingIndustryScore]
      simp only [hci, hn, hind, hne, he]
      simp
    rw [listingScore, hisc]
    refine ⟨_, _, rfl, ?_⟩
    intro q hq
    rw [listingDetails] at hq
    rw [if_neg (by norm_num : ¬ (0:ℚ) < 0), List.append_nil] at hq
    rcases List.mem_append.mp hq with h1 | h1
    · by_cases hb : 0 < listingNameScore criteria fz cand.props
      · rw [if_pos hb] at h1
        rcases List.mem_singleton.mp h1 with rfl
        simp
      · rw [if_neg hb] at h1
        exact absurd h1 (List.not_mem_nil q)
    · by_cases hb : 0 < listingDomainScore criteria cand.props
      · rw [if_pos hb] at h1
        rcases List.mem_singleton.mp h1 with rfl
        simp
      · rw [if_neg hb] at h1
        exact absurd h1 (List.not_mem_nil q)

/-- C9 witness: criteria industry "123" makes `find_companies` raise
even with a non-empty candidate list; a record industry "123" under
valid criteria industry "BANKING" is scored without error and without
an industry entry. -/
theorem c9_witness :
    (find_companies [("industry", "123")]
        [⟨"a", [("name", some "Acme")]⟩] true (7/10)
      = .error "Industry must be uppercase with underscores (V3 API format). Got: 123") ∧
    (∃ sc d, listingScore [("industry", "BANKING")] true
        ⟨"b", [("industry", some "123")]⟩ = .ok (sc, d) ∧
      ∀ q ∈ d, ¬ q.1 = "industry") :=
  ⟨(c9_criteria_raises_record_swallowed [("industry", "123")] "123" (by decide)).1
      "Industry must be uppercase with underscores (V3 API format). Got: 123"
      (by decide) _ true (7/10),
   (c9_criteria_raises_record_swallowed [("industry", "BANKING")] "BANKING" (by decide)).2
      "BANKING" (by decide) ⟨"b", [("industry", some "123")]⟩ "123" (by decide) (by decide)
      "Industry must be uppercase with underscores (V3 API format). Got: 123"
      (by decide) true⟩

/-! ## C2: which scorer drives the create-or-update dedup decision -/

/-- Modelled from the spec (§4.4a with §4.5): the candidates the spec's
create-or-update dedup check keeps — every candidate whose detailed
score (weights name 0.4, domain 0.3, industry 0.2, other 0.1, with the
exact-name short-circuit and the 20%/10% boosts) reaches
match_threshold. -/
def specDetailedDedupMatches (company_data : Criteria) (candidates : List Candidate)
    (fuzzy : Bool) (match_threshold : ℚ) : List Candidate :=
  candidates.filter (fun c =>
    match _calculate_match_score c.props company_data fuzzy with
    | .ok s => match_threshold ≤ s
    | .error _ => false)

theorem sortDesc_eq_nil_iff {l : List MatchResult} : sortDesc l = [] ↔ l = [] := by
  constructor
  · intro h
    cases l with
    | nil => rfl
    | cons a as =>
      have ha : a ∈ sortDesc (a :: as) := mem_sortDesc.mpr (List.mem_cons_self _ _)
      rw [h] at ha
      exact absurd ha (List.not_mem_nil _)
  · rintro rfl
    rfl

theorem head_sortDesc_max {l : List MatchResult} {h : MatchResult} {t : List MatchResult}
    (e : sortDesc l = h :: t) :
    h ∈ l ∧ ∀ x ∈ l, x.match_score ≤ h.match_score := by
  have hmem : h ∈ sortDesc l := by
    rw [e]
    exact List.mem_cons_self _ _
  have hsorted := sorted_sortDesc l
  rw [e] at hsorted
  rcases List.pairwise_cons.mp hsorted with ⟨hh, _⟩
  refine ⟨mem_sortDesc.mp hmem, ?_⟩
  intro x hx
  have hxs : x ∈ sortDesc l := mem_sortDesc.mpr hx
  rw [e] at hxs
  rcases List.mem_cons.mp hxs with rfl | hxt
  · exact le_refl _
  · exact hh x hxt

theorem lookup_some_any {props : Criteria} {k x : String}
    (h : criteriaLookup props k = some x) :
    props.any (fun p => p.1 = k) = true := by
  simp only [criteriaLookup, Option.map_eq_some'] at h
  obtain ⟨p, hfind, _⟩ := h
  rw [List.any_eq_true]
  have hp := List.find?_some hfind
  exact ⟨p, List.mem_of_find?_eq_some hfind, hp⟩

theorem criteriaLookup_setKey_same {props : Criteria} {k v : String}
    (h : props.any (fun p => p.1 = k) = true) :
    criteriaLookup (setKey props k v) k = some v := by
  rw [setKey, if_pos h]
  induction props with
  | nil => simp at h
  | cons p ps ih =>
    by_cases hp : p.1 = k
    · simp [criteriaLookup, List.find?, hp]
    · rw [List.map_cons, if_neg hp]
      have hps : ps.any (fun q => q.1 = k) = true := by
        rcases List.any_eq_true.mp h with ⟨q, hq, hqk⟩
        rcases List.mem_cons.mp hq with rfl | hq'
        · exact absurd (of_decide_eq_true hqk) hp
        · exact List.any_eq_true.mpr ⟨q, hq', hqk⟩
      have := ih hps
      simp only [criteriaLookup, List.find?] at this ⊢
      rw [show (decide (p.1 = k)) = false from by simp [hp]]
      exact this

/-- `applyIndustryValidation` either leaves the data alone (no industry
key) or replaces the industry value with its normalization. -/
theorem applyIndustryValidation_ok {cd : Criteria} {tm ac : Bool} {data : Criteria}
    (h : applyIndustryValidation cd tm ac = .ok data) :
    (criteriaLookup cd "industry" = none ∧ data = cd) ∨
    (∃ ind n, criteriaLookup cd "industry" = some ind ∧
      normalize_industry (some ind) tm = .ok n ∧ data = setKey cd "industry" n) := by
  rw [applyIndustryValidation] at h
  rcases hind : criteriaLookup cd "industry" with _ | ind
  · rw [hind] at h
    simp only [Except.ok.injEq] at h
    exact Or.inl ⟨rfl, h.symm⟩
  · simp only [hind] at h
    rcases hn : normalize_industry (some ind) tm with e | n
    · rw [hn] at h
      exact absurd h (by simp)
    · rw [hn] at h
      simp only [Except.ok.injEq] at h
      exact Or.inr ⟨ind, n, rfl, hn, h.symm⟩

/-- After the industry validation step, the top-of-function industry
re-normalization inside `find_companies` cannot fail. -/
theorem find_companies_after_validation {cd : Criteria} {tm ac : Bool} {data : Criteria}
    (hdata : applyIndustryValidation cd tm ac = .ok data)
    (cands : List Candidate) (fz : Bool) (θ : ℚ) :
    find_companies data cands fz θ = find_companies_scan data cands fz θ := by
  rcases applyIndustryValidation_ok hdata with ⟨hnone, rfl⟩ | ⟨ind, n, hind, hn, rfl⟩
  · rw [find_companies]
    simp only [hnone]
  · have hl : criteriaLookup (setKey cd "industry" n) "industry" = some n :=
      criteriaLookup_setKey_same (lookup_some_any hind)
    obtain ⟨w, hw⟩ := normalize_ok_of_formatOk (normalize_ok_formatOk hn)
    rw [find_companies]
    simp only [hl, hw]

/-- C2 (counterexample): with company_data `{domain: acme.com}` and one
stored record with the same domain, at the default threshold 0.8 the
code's match-existence decision (via the listing scorer, score 1.0)
finds the record and then raises AttributeError at `best_match.id`
(line 361), while the spec's detailed scorer keeps no candidate (its
score is 3/7 < 0.8, so the spec-prescribed decision would be a create):
the decision is not the one induced by the detailed scorer, and no
top-ranked record is updated. -/
theorem c2_counterexample :
    create_or_update_company [("domain", "acme.com")]
        [⟨"c1", [("domain", some "acme.com")]⟩] true (8/10) false false
      = .error "AttributeError: 'dict' object has no attribute 'id'" ∧
    specDetailedDedupMatches [("domain", "acme.com")]
        [⟨"c1", [("domain", some "acme.com")]⟩] true (8/10) = [] ∧
    _calculate_match_score [("domain", some "acme.com")] [("domain", "acme.com")] true
      = .ok (3/7) := by
  refine ⟨?_, ?_, ?_⟩
  · simp +decide [create_or_update_company, applyIndustryValidation, find_companies,
      find_companies_scan, scoreAll, listingScore, listingNameScore, listingDomainScore,
      listingIndustryScore, listingDetails, listingCombine, criteriaLookup, propLookup,
      List.find?, _match_domains, strFalsy, normalize_domain, pyContainsSeq, pyLower,
      pyLowerCh, pyStrip, pyIsSpace, rstripSlash, List.isPrefixOf, sortDesc, insertDesc]
    norm_num
    simp [sortDesc, insertDesc]
  · simp +decide [specDetailedDedupMatches, _calculate_match_score, detailedRest,
      industryBlockDetailed, otherPropsScore, criteriaLookup, propLookup, List.find?,
      _match_domains, strFalsy, normalize_domain, pyContainsSeq, pyLower, pyLowerCh,
      pyStrip, pyIsSpace, rstripSlash, List.isPrefixOf]
    norm_num
  · simp +decide [_calculate_match_score, detailedRest, industryBlockDetailed,
      otherPropsScore, criteriaLookup, propLookup, List.find?, _match_domains, strFalsy,
      normalize_domain, pyContainsSeq, pyLower, pyLowerCh, pyStrip, pyIsSpace,
      rstripSlash, List.isPrefixOf]
    norm_num

/-- C2 (amended): the match-existence decision of
`create_or_update_company` is the one induced by the listing scorer of
§4.4b (weights name 0.5, domain 0.3, industry 0.2, no other bucket, no
boosts): a new record is created exactly when no candidate's listing
score reaches match_threshold; when some candidate does, the function
raises AttributeError at `best_match.id` (line 361) before issuing any
store call, so no record is ever updated. The detailed scorer of §4.4a
is not consulted. -/
theorem c2_dedup_follows_listing_scorer (cd : Criteria) (cands : List Candidate)
    (fz : Bool) (θ : ℚ) (tm ac : Bool) (data : Criteria) (scored : List MatchResult)
    (hdata : applyIndustryValidation cd tm ac = .ok data)
    (hsc : scoreAll data fz cands = .ok scored) :
    (create_or_update_company cd cands fz θ tm ac = .ok (.create data) ↔
      ∀ r ∈ scored, r.match_score < θ) ∧
    ((∃ r ∈ scored, θ ≤ r.match_score) →
      create_or_update_company cd cands fz θ tm ac
        = .error "AttributeError: 'dict' object has no attribute 'id'") ∧
    (∀ cid d, ¬ create_or_update_company cd cands fz θ tm ac = .ok (.update cid d)) := by
  have hfind : find_companies data cands fz θ
      = .ok (sortDesc (scored.filter (fun r => θ ≤ r.match_score))) := by
    rw [find_companies_after_validation hdata, find_companies_scan, hsc]
  rcases hsort : sortDesc (scored.filter (fun r => θ ≤ r.match_score)) with _ | ⟨best, rest⟩
  · have hcu : create_or_update_company cd cands fz θ tm ac = .ok (.create data) := by
      rw [create_or_update_company]
      simp only [hdata, hfind, hsort]
    have hfe : scored.filter (fun r => θ ≤ r.match_score) = [] :=
      sortDesc_eq_nil_iff.mp hsort
    refine ⟨?_, ?_, ?_⟩
    · constructor
      · intro _ r hr
        by_cases hθ : θ ≤ r.match_score
        · exfalso
          have hrf : r ∈ scored.filter (fun x => θ ≤ x.match_score) :=
            List.mem_filter.mpr ⟨hr, by simpa using hθ⟩
          rw [hfe] at hrf
          exact absurd hrf (List.not_mem_nil r)
        · exact lt_of_not_le hθ
      · intro _
        exact hcu
    · rintro ⟨r, hr, hθ⟩
      exfalso
      have hrf : r ∈ scored.filter (fun x => θ ≤ x.match_score) :=
        List.mem_filter.mpr ⟨hr, by simpa using hθ⟩
      rw [hfe] at hrf
      exact absurd hrf (List.not_mem_nil r)
    · intro cid d hupd
      have hcontra := hcu.symm.trans hupd
      exact absurd hcontra (by simp)
  · have hcu : create_or_update_company cd cands fz θ tm ac
        = .error "AttributeError: 'dict' object has no attribute 'id'" := by
      rw [create_or_update_company]
      simp only [hdata, hfind, hsort]
    have hmax := head_sortDesc_max hsort
    have hbf := List.mem_filter.mp hmax.1
    have hθb : θ ≤ best.match_score := by simpa using hbf.2
    refine ⟨?_, ?_, ?_⟩
    · constructor
      · intro hcreate
        have hcontra := hcu.symm.trans hcreate
        exact absurd hcontra (by simp)
      · intro hall
        exact absurd hθb (not_le_of_lt (hall best hbf.1))
    · intro _
      exact hcu
    · intro cid d hupd
      have hcontra := hcu.symm.trans hupd
      exact absurd hcontra (by simp)

/-- C2 witness for the amended claim: with no candidates, every score
is vacuously below threshold and the decision is a create. -/
theorem c2_amended_witness :
    create_or_update_company [("name", "X")] [] true (8/10) false false
      = .ok (.create [("name", "X")]) :=
  (c2_dedup_follows_listing_scorer [("name", "X")] [] true (8/10) false false
      [("name", "X")] [] (by decide) rfl).1.mpr (by simp)

/-! ## Batch validation characterization (shared by C5 and C10) -/

/-- Whether the validation pass accepts this item. -/
def itemPasses (tm ac : Bool) (u : BatchUpdateItem) : Bool :=
  ! itemFailsValidation tm ac u

theorem batchValidateStep_eq (tm ac : Bool)
    (acc : List BatchResult × List (String × Criteria)) (u : BatchUpdateItem) :
    batchValidateStep tm ac acc u =
      if itemFailsValidation tm ac u = true
      then (acc.1 ++ [itemError u], acc.2)
      else (acc.1, acc.2 ++ [itemSubmitted tm u]) := by
  rcases h : criteriaLookup u.properties "industry" with _ | ind
  · have hf : itemFailsValidation tm ac u = false := by
      simp [itemFailsValidation, itemIndustry, h]
    rw [hf, if_neg (by simp)]
    rw [batchValidateStep]
    simp only [h]
    rw [itemSubmitted]
    simp only [itemIndustry, h]
  · by_cases hv : is_valid_industry (some ind) tm ac = true
    · have hf : itemFailsValidation tm ac u = false := by
        simp [itemFailsValidation, itemIndustry, h, hv]
      rw [hf, if_neg (by simp)]
      obtain ⟨n, hn, _⟩ := normalize_ok_of_is_valid hv
      rw [batchValidateStep]
      simp only [h, hn]
      rw [if_neg (by simpa using hv)]
      rw [itemSubmitted]
      simp only [itemIndustry, h, hn]
    · have hf : itemFailsValidation tm ac u = true := by
        simp [itemFailsValidation, itemIndustry, h, hv]
      rw [hf, if_pos rfl]
      rw [batchValidateStep]
      simp only [h]
      rw [if_pos (by simpa using hv)]
      rw [itemError]
      simp only [itemIndustry, h, Option.getD_some]

theorem batchValidate_foldl (tm ac : Bool) :
    ∀ (updates : List BatchUpdateItem) (acc : List BatchResult × List (String × Criteria)),
      updates.foldl (batchValidateStep tm ac) acc
        = (acc.1 ++ (updates.filter (itemFailsValidation tm ac)).map itemError,
           acc.2 ++ (updates.filter (itemPasses tm ac)).map (itemSubmitted tm)) := by
  intro updates
  induction updates with
  | nil =>
    intro acc
    simp
  | cons u us ih =>
    intro acc
    rw [List.foldl_cons, batchValidateStep_eq]
    by_cases hf : itemFailsValidation tm ac u = true
    · rw [if_pos hf, ih]
      rw [List.filter_cons_of_pos (by simpa using hf),
          List.filter_cons_of_neg (by simp [itemPasses, hf])]
      simp
    · rw [if_neg hf, ih]
      rw [List.filter_cons_of_neg (by simpa using hf),
          List.filter_cons_of_pos (by simp [itemPasses, hf])]
      simp

/-- The validation pass, in closed form: error entries for the failing
items in order, and normalized batch inputs for the passing items in
order. -/
theorem batchValidate_eq (updates : List BatchUpdateItem) (tm ac : Bool) :
    batchValidate updates tm ac
      = ((updates.filter (itemFailsValidation tm ac)).map itemError,
         (updates.filter (itemPasses tm ac)).map (itemSubmitted tm)) := by
  rw [batchValidate, batchValidate_foldl]
  simp

theorem chunksOf_join {α : Type} {n : Nat} (hn : ¬ n = 0) :
    ∀ (l : List α), (chunksOf n l).flatMap (fun c => c) = l := by
  intro l
  generalize hk : l.length = k
  induction k using Nat.strong_induction_on generalizing l with
  | _ k ih =>
    cases l with
    | nil => simp [chunksOf]
    | cons a as =>
      rw [chunksOf, dif_neg hn, List.flatMap_cons]
      rw [ih ((a :: as).drop n).length (by subst hk; simp [List.length_drop]; omega) _ rfl]
      exact List.take_append_drop n (a :: as)

theorem chunksOf_length_le {α : Type} {n : Nat} :
    ∀ (l : List α), ∀ c ∈ chunksOf n l, c.length ≤ n := by
  intro l
  generalize hk : l.length = k
  induction k using Nat.strong_induction_on generalizing l with
  | _ k ih =>
    cases l with
    | nil =>
      intro c hc
      simp [chunksOf] at hc
    | cons a as =>
      intro c hc
      rw [chunksOf] at hc
      by_cases hn : n = 0
      · rw [dif_pos hn] at hc
        exact absurd hc (List.not_mem_nil c)
      · rw [dif_neg hn] at hc
        rcases List.mem_cons.mp hc with rfl | hc'
        · rw [List.length_take]
          exact Nat.min_le_left _ _
        · exact ih ((a :: as).drop n).length (by subst hk; simp [List.length_drop]; omega)
            _ rfl c hc'

theorem length_filter_partition (tm ac : Bool) (l : List BatchUpdateItem) :
    (l.filter (itemFailsValidation tm ac)).length
      + (l.filter (itemPasses tm ac)).length = l.length := by
  induction l with
  | nil => rfl
  | cons u us ih =>
    by_cases hp : itemFailsValidation tm ac u = true
    · rw [List.filter_cons_of_pos hp, List.filter_cons_of_neg (by simp [itemPasses, hp])]
      simp only [List.length_cons]
      omega
    · rw [List.filter_cons_of_neg hp, List.filter_cons_of_pos (by simp [itemPasses, hp])]
      simp only [List.length_cons]
      omega

theorem processGroup_length (store : RecordStore)
    (hstore : ∀ b sts, store.batchUpdate b = .ok sts → sts.length = b.length)
    (batch : List (String × Criteria)) :
    (processGroup store batch).length = batch.length := by
  rw [processGroup]
  rcases h : store.batchUpdate batch with e | sts
  · simp
  · simp [hstore _ _ h]

theorem flatMap_single_targets (batch : List (String × Criteria)) :
    (batch.map (fun c => Mutation.single c.1 c.2)).flatMap mutationTargets = batch := by
  induction batch with
  | nil => rfl
  | cons b bs ih =>
    rw [List.map_cons, List.flatMap_cons, ih]
    rfl

theorem groupMutations_targets (store : RecordStore) (batch : List (String × Criteria)) :
    (groupMutations store batch).flatMap mutationTargets = batch := by
  rw [groupMutations]
  rcases h : store.batchUpdate batch with e | sts
  · exact flatMap_single_targets batch
  · simp [mutationTargets]

theorem take_length_append {α : Type} (l1 l2 : List α) : (l1 ++ l2).take l1.length = l1 := by
  induction l1 with
  | nil => rfl
  | cons a as ih => simp [ih]

theorem flatMap_length_processGroup (store : RecordStore)
    (hstore : ∀ b sts, store.batchUpdate b = .ok sts → sts.length = b.length)
    (chunks : List (List (String × Criteria))) :
    (chunks.flatMap (processGroup store)).length = (chunks.flatMap (fun c => c)).length := by
  induction chunks with
  | nil => rfl
  | cons c cs ih =>
    rw [List.flatMap_cons, List.flatMap_cons, List.length_append, List.length_append,
        processGroup_length store hstore, ih]

theorem flatMap_groupMutations_targets (store : RecordStore)
    (chunks : List (List (String × Criteria))) :
    ((chunks.flatMap (groupMutations store)).flatMap mutationTargets)
      = chunks.flatMap (fun c => c) := by
  induction chunks with
  | nil => rfl
  | cons c cs ih =>
    rw [List.flatMap_cons, List.flatMap_cons, List.flatMap_append,
        groupMutations_targets, ih]

/-! ## C5: batch_update_companies per-item outcomes -/

/-- C5: with a record store whose successful bulk calls return one
status per input, `batch_update_companies` returns exactly one outcome
per item; the items failing industry validation each yield an error
entry (front-loaded, in order) and no mutation is issued for them — the
mutations issued target exactly the validated items; valid items are
grouped into bulk calls of at most 100; and a failed bulk call is
retried item by item, so one failing item never voids the others. -/
theorem c5_batch_outcomes (store : RecordStore) (updates : List BatchUpdateItem)
    (tm ac : Bool)
    (hstore : ∀ b sts, store.batchUpdate b = .ok sts → sts.length = b.length) :
    (batch_update_companies store updates tm ac).length = updates.length ∧
    ((batch_update_companies store updates tm ac).take
        (updates.filter (itemFailsValidation tm ac)).length
      = (updates.filter (itemFailsValidation tm ac)).map itemError) ∧
    ((batchIssuedMutations store updates tm ac).flatMap mutationTargets
      = (updates.filter (itemPasses tm ac)).map (itemSubmitted tm)) ∧
    (∀ chunk ∈ chunksOf 100 (batchValidate updates tm ac).2, chunk.length ≤ 100) ∧
    (∀ chunk e, store.batchUpdate chunk = .error e →
      processGroup store chunk = chunk.map (fun c =>
        match store.singleUpdate c.1 c.2 with
        | .ok rprops => .ok c.1 rprops
        | .error m => .err c.1 m)) := by
  have hv := batchValidate_eq updates tm ac
  have h100 : ¬ (100 : Nat) = 0 := by decide
  refine ⟨?_, ?_, ?_, ?_, ?_⟩
  · rw [batch_update_companies, hv, List.length_append,
        flatMap_length_processGroup store hstore, chunksOf_join h100,
        List.length_map, List.length_map]
    have := length_filter_partition tm ac updates
    omega
  · rw [batch_update_companies, hv]
    rw [show (updates.filter (itemFailsValidation tm ac)).length
        = ((updates.filter (itemFailsValidation tm ac)).map itemError).length by
      rw [List.length_map]]
    exact take_length_append _ _
  · rw [batchIssuedMutations, hv, flatMap_groupMutations_targets, chunksOf_join h100]
  · intro chunk hchunk
    exact chunksOf_length_le _ chunk hchunk
  · intro chunk e he
    rw [processGroup, he]

/-- A record store whose bulk endpoint answers one 200 status per input
and whose single-record endpoint echoes the submitted properties. -/
def okStore : RecordStore where
  batchUpdate := fun b => .ok (b.map (fun c => ⟨c.1, 200, "", c.2⟩))
  singleUpdate := fun _ props => .ok props

/-- C5 witness: the three-item scenario of the spec (§8), item 2
carrying an invalid industry, against a store that accepts every
mutation. -/
theorem c5_witness :
    (batch_update_companies okStore
        [⟨"1", [("industry", "BANKING")]⟩,
         ⟨"2", [("industry", "Invalid-Industry")]⟩,
         ⟨"3", [("industry", "COMPUTER_SOFTWARE")]⟩] false false).length = 3 ∧
    ((batch_update_companies okStore
        [⟨"1", [("industry", "BANKING")]⟩,
         ⟨"2", [("industry", "Invalid-Industry")]⟩,
         ⟨"3", [("industry", "COMPUTER_SOFTWARE")]⟩] false false).take
        (([⟨"1", [("industry", "BANKING")]⟩,
           ⟨"2", [("industry", "Invalid-Industry")]⟩,
           ⟨"3", [("industry", "COMPUTER_SOFTWARE")]⟩] :
            List BatchUpdateItem).filter (itemFailsValidation false false)).length
      = (([⟨"1", [("industry", "BANKING")]⟩,
           ⟨"2", [("industry", "Invalid-Industry")]⟩,
           ⟨"3", [("industry", "COMPUTER_SOFTWARE")]⟩] :
            List BatchUpdateItem).filter (itemFailsValidation false false)).map itemError) := by
  have h := c5_batch_outcomes okStore
    [⟨"1", [("industry", "BANKING")]⟩,
     ⟨"2", [("industry", "Invalid-Industry")]⟩,
     ⟨"3", [("industry", "COMPUTER_SOFTWARE")]⟩] false false
    (by
      intro b sts hok
      injection hok with h2
      rw [← h2, List.length_map])
  exact ⟨h.1, h.2.1⟩

/-! ## C10: only the industry key is rewritten before store calls -/

theorem find?_replaceKey {props : Criteria} {k v kq : String} (hne : ¬ kq = k) :
    (props.map (fun p => if p.1 = k then (k, v) else p)).find? (fun p => p.1 = kq)
      = props.find? (fun p => p.1 = kq) := by
  induction props with
  | nil => rfl
  | cons p ps ih =>
    rw [List.map_cons]
    by_cases hp : p.1 = k
    · have h1 : ¬ (k, v).1 = kq := fun he => hne he.symm
      have h2 : ¬ p.1 = kq := fun he => hne (he.symm.trans hp)
      rw [if_pos hp, List.find?_cons_of_neg _ (by simpa using h1),
          List.find?_cons_of_neg _ (by simpa using h2)]
      exact ih
    · rw [if_neg hp]
      by_cases hq : p.1 = kq
      · rw [List.find?_cons_of_pos _ (by simpa using hq),
            List.find?_cons_of_pos _ (by simpa using hq)]
      · rw [List.find?_cons_of_neg _ (by simpa using hq),
            List.find?_cons_of_neg _ (by simpa using hq)]
        exact ih

theorem criteriaLookup_setKey_other {props : Criteria} {k v kq : String}
    (hne : ¬ kq = k) :
    criteriaLookup (setKey props k v) kq = criteriaLookup props kq := by
  rw [setKey]
  by_cases h : props.any (fun p => p.1 = k) = true
  · rw [if_pos h]
    unfold criteriaLookup
    rw [find?_replaceKey hne]
  · rw [if_neg h]
    unfold criteriaLookup
    rw [List.find?_append]
    have hnone : (([(k, v)] : Criteria).find? (fun p => p.1 = kq)) = none := by
      rw [List.find?_cons_of_neg _ (by simpa using fun he : k = kq => hne he.symm)]
      rfl
    rw [hnone, Option.or_none]

theorem setKey_keys {props : Criteria} {k v : String}
    (h : props.any (fun p => p.1 = k) = true) :
    (setKey props k v).map Prod.fst = props.map Prod.fst := by
  rw [setKey, if_pos h, List.map_map]
  apply List.map_congr_left
  intro p _
  by_cases hpk : p.1 = k
  · simp [hpk]
  · simp [hpk]

/-- C10: `create_or_update_company`, `update_company` and the
validation pass of `batch_update_companies` each submit to the record
store exactly the caller's properties with only the industry value
replaced by its normalized form; `setKey` changes no other key and
leaves the key set unchanged. -/
theorem c10_only_industry_rewritten :
    (∀ cd cands fz θ tm ac ind act, criteriaLookup cd "industry" = some ind →
      create_or_update_company cd cands fz θ tm ac = .ok act →
      ∃ n, normalize_industry (some ind) tm = .ok n ∧
        act.props = setKey cd "industry" n) ∧
    (∀ cd cands fz θ tm ac act, criteriaLookup cd "industry" = none →
      create_or_update_company cd cands fz θ tm ac = .ok act →
      act.props = cd) ∧
    (∀ cid props tm ac ind out, criteriaLookup props "industry" = some ind →
      update_company cid props tm ac = .ok out →
      ∃ n, normalize_industry (some ind) tm = .ok n ∧
        out = (cid, setKey props "industry" n)) ∧
    (∀ updates tm ac, (batchValidate updates tm ac).2
      = (updates.filter (itemPasses tm ac)).map (itemSubmitted tm)) ∧
    (∀ (u : BatchUpdateItem) tm ind, itemIndustry u = some ind →
      ∀ n, normalize_industry (some ind) tm = .ok n →
      itemSubmitted tm u = (u.company_id, setKey u.properties "industry" n)) ∧
    (∀ props k v kq, ¬ kq = k →
      criteriaLookup (setKey props k v) kq = criteriaLookup props kq) ∧
    (∀ props n ind, criteriaLookup props "industry" = some ind →
      criteriaLookup (setKey props "industry" n) "industry" = some n ∧
      (setKey props "industry" n).map Prod.fst = props.map Prod.fst) := by
  have hact : ∀ cd cands fz θ tm ac act data,
      applyIndustryValidation cd tm ac = .ok data →
      create_or_update_company cd cands fz θ tm ac = .ok act →
      act.props = data := by
    intro cd cands fz θ tm ac act data hval hcu
    rw [create_or_update_company] at hcu
    simp only [hval] at hcu
    rcases hf : find_companies data cands fz θ with e | ms
    · rw [hf] at hcu
      exact absurd hcu (by simp)
    · rw [hf] at hcu
      rcases ms with _ | ⟨best, rest⟩
      · simp only [Except.ok.injEq] at hcu
        rw [← hcu]
        rfl
      · exact absurd hcu (by simp)
  refine ⟨?_, ?_, ?_, ?_, ?_, ?_, ?_⟩
  · intro cd cands fz θ tm ac ind act hind hcu
    rcases hval : applyIndustryValidation cd tm ac with e | data
    · rw [create_or_update_company] at hcu
      simp only [hval] at hcu
      exact absurd hcu (by simp)
    · rcases applyIndustryValidation_ok hval with ⟨hnone, _⟩ | ⟨ind', n, hind', hn, hdata⟩
      · rw [hnone] at hind
        exact absurd hind (by simp)
      · rw [hind] at hind'
        injection hind' with he
        subst he
        exact ⟨n, hn, by rw [hact cd cands fz θ tm ac act data hval hcu, hdata]⟩
  · intro cd cands fz θ tm ac act hind hcu
    rcases hval : applyIndustryValidation cd tm ac with e | data
    · rw [create_or_update_company] at hcu
      simp only [hval] at hcu
      exact absurd hcu (by simp)
    · rcases applyIndustryValidation_ok hval with ⟨_, hdata⟩ | ⟨ind', n, hind', _, _⟩
      · rw [hact cd cands fz θ tm ac act data hval hcu, hdata]
      · rw [hind] at hind'
        exact absurd hind' (by simp)
  · intro cid props tm ac ind out hind hup
    rw [update_company] at hup
    simp only [hind] at hup
    by_cases hvalid : is_valid_industry (some ind) tm ac = true
    · rw [if_neg (by simpa using hvalid)] at hup
      rcases hn : normalize_industry (some ind) tm with e | n
      · rw [hn] at hup
        exact absurd hup (by simp)
      · rw [hn] at hup
        simp only [Except.ok.injEq] at hup
        exact ⟨n, rfl, hup.symm⟩
    · rw [if_pos (by simpa using hvalid)] at hup
      exact absurd hup (by simp)
  · intro updates tm ac
    rw [batchValidate_eq]
  · intro u tm ind hind n hn
    rw [itemSubmitted]
    simp only [hind, hn]
  · intro props k v kq hne
    exact criteriaLookup_setKey_other hne
  · intro props n ind hind
    exact ⟨criteriaLookup_setKey_same (lookup_some_any hind),
           setKey_keys (lookup_some_any hind)⟩

/-- C10 witness: a concrete create call submits the caller's properties
with only the industry value replaced by its canonical form. -/
theorem c10_witness :
    ∃ n, normalize_industry (some "banking") false = .ok n ∧
      (StoreAction.create [("name", "X"), ("industry", "BANKING")]).props
        = setKey [("name", "X"), ("industry", "banking")] "industry" n :=
  c10_only_industry_rewritten.1 [("name", "X"), ("industry", "banking")] [] true (8/10)
    false false "banking" (.create [("name", "X"), ("industry", "BANKING")])
    (by decide) (by decide)

end McpHubspot
